import Mathlib

/-!
Verification of the hackjackcompiler repository (a Jack-to-VM compiler
written in Go) against its natural-language specification.

The Go sources are shallowly embedded: every Go function relevant to the
claims is translated into an executable Lean definition with explicit
state passing; fallible Go code (functions returning an error, or code
that panics and is recovered into an error by Compiler.Run and
ParseTree.recover) is modelled with Except / Option.

Source files referenced below:
  table.go    : SymbolTable, SymbolTableList
  compiler.go : Compiler (string-emitting helpers, OpenWhile / OpenIf)
  nodes.go    : AST nodes and their Compile methods
  token.go    : Tokenizer.ReadToken and its helpers
  part_001    : ParseTree (recursive-descent parser)
-/

namespace HackJack

/-! ## Symbol environment (table.go) -/

/-- VarKind from table.go: Field, Static, Arg, Local. -/
inductive VarKind where
  | Field
  | Static
  | Arg
  | Local
deriving DecidableEq, Repr, Fintype

/-- VarInfo from table.go: kind, type name and offset of a declared variable. -/
structure VarInfo where
  kind : VarKind
  type : String
  offset : Nat
deriving DecidableEq, Repr

/-- Per-kind counters of a symbol table.  The Go code stores them in a map
initialised with exactly the four kinds, so a four-field record is a
faithful model. -/
structure Counters where
  fieldC : Nat
  staticC : Nat
  argC : Nat
  localC : Nat
deriving DecidableEq, Repr

def Counters.get (c : Counters) : VarKind → Nat
  | .Field => c.fieldC
  | .Static => c.staticC
  | .Arg => c.argC
  | .Local => c.localC

def Counters.bump (c : Counters) : VarKind → Counters
  | .Field => { c with fieldC := c.fieldC + 1 }
  | .Static => { c with staticC := c.staticC + 1 }
  | .Arg => { c with argC := c.argC + 1 }
  | .Local => { c with localC := c.localC + 1 }

/-- SymbolTable from table.go.  The Go name-to-VarInfo map is modelled as an
association list (keys are kept unique by the AddVar guard, so lookup
semantics coincide with the Go map). -/
structure SymbolTable where
  name : String
  table : List (String × VarInfo)
  counter : Counters
deriving DecidableEq, Repr

/-- NewSymbolTable from table.go: empty map, all four counters zero. -/
def NewSymbolTable (name : String) : SymbolTable :=
  { name := name, table := [], counter := ⟨0, 0, 0, 0⟩ }

/-- SymbolTable.GetVarInfo from table.go; the (VarInfo, error) pair is
modelled as an Option. -/
def SymbolTable.getVarInfo (st : SymbolTable) (name : String) : Option VarInfo :=
  (st.table.find? (fun p => p.1 = name)).map (·.2)

/-- SymbolTable.AddVar from table.go.  The mutation semantics of the Go
method is modelled by returning the (possibly unchanged) table together
with the optional error: the Go code checks for a duplicate name first and
returns the error before performing any mutation. -/
def SymbolTable.addVar (st : SymbolTable) (kind : VarKind) (vType name : String) :
    Option String × SymbolTable :=
  if (st.getVarInfo name).isSome then
    (some ("Var named " ++ name ++ " already in the symbol table " ++ st.name), st)
  else
    (none,
      { st with
        table := st.table ++ [(name, ⟨kind, vType, st.counter.get kind⟩)]
        counter := st.counter.bump kind })

/-- SymbolTable.Count from table.go. -/
def SymbolTable.count (st : SymbolTable) (kind : VarKind) : Nat :=
  st.counter.get kind

/-- SymbolTableList from table.go is a Go slice of tables; the innermost
table is the last element.  We model the list field directly. -/
abbrev SymbolTableList := List SymbolTable

/-- SymbolTableList.find from table.go: iterate from the last (innermost)
table down to the first; the first table that knows the name supplies the
result, otherwise the UndeclaredVariable error is produced.  The downward
for-loop is modelled as recursion over the reversed list. -/
def findAux (name : String) : List SymbolTable → Except String VarInfo
  | [] => .error ("A variable named \x22" ++ name ++ "\x22 was not declared")
  | tbl :: rest =>
    match tbl.getVarInfo name with
    | some vi => .ok vi
    | none => findAux name rest

def SymbolTableList.find (stl : SymbolTableList) (name : String) : Except String VarInfo :=
  findAux name stl.reverse

/-- SymbolTableList.IsVar from table.go. -/
def SymbolTableList.isVar (stl : SymbolTableList) (name : String) : Bool :=
  (stl.find name).toOption.isSome

/-- SymbolTableList.CreateTable from table.go. -/
def SymbolTableList.createTable (stl : SymbolTableList) (name : String) : SymbolTableList :=
  stl ++ [NewSymbolTable name]

/-- SymbolTableList.CloseTable from table.go. -/
def SymbolTableList.closeTable (stl : SymbolTableList) : SymbolTableList :=
  stl.dropLast

/-! Helper notions used by the claims about the symbol table. -/

/-- Number of entries of a given kind currently stored in a table.  Every
successful addVar of kind k appends exactly one entry of kind k and entries
are never removed, so this equals the number of prior successful additions
of that kind. -/
def SymbolTable.kindCount (st : SymbolTable) (kind : VarKind) : Nat :=
  (st.table.filter (fun p => p.2.kind = kind)).length

/-- Invariant of SymbolTable: each per-kind counter equals the number of
entries of that kind. -/
def SymbolTable.inv (st : SymbolTable) : Prop :=
  ∀ k, st.counter.get k = st.kindCount k

instance (st : SymbolTable) : Decidable st.inv := by
  unfold SymbolTable.inv
  infer_instance

/-! ## Symbol-table lemmas -/

lemma counters_get_bump (c : Counters) (k k' : VarKind) :
    (c.bump k).get k' = if k' = k then c.get k' + 1 else c.get k' := by
  cases k <;> cases k' <;> simp [Counters.bump, Counters.get]

lemma getVarInfo_append_single (st : SymbolTable) (name n : String) (vi : VarInfo)
    (h : st.getVarInfo name = none) :
    ({ st with table := st.table ++ [(n, vi)] } : SymbolTable).getVarInfo name =
      if n = name then some vi else none := by
  unfold SymbolTable.getVarInfo at h ⊢
  rw [Option.map_eq_none'] at h
  by_cases hn : n = name <;> simp [List.find?_append, h, List.find?, hn]

lemma kindCount_addVar (st : SymbolTable) (kind : VarKind) (vType name : String)
    (h : st.getVarInfo name = none) (k : VarKind) :
    (st.addVar kind vType name).2.kindCount k =
      st.kindCount k + if kind = k then 1 else 0 := by
  unfold SymbolTable.addVar
  simp only [h, Option.isSome_none, Bool.false_eq_true, if_false]
  unfold SymbolTable.kindCount
  simp only [List.filter_append]
  by_cases hk : kind = k <;> simp [List.filter, hk, List.length_append]

lemma addVar_ok_elim (st st' : SymbolTable) (kind : VarKind) (vType name : String)
    (h : st.addVar kind vType name = (none, st')) :
    st.getVarInfo name = none ∧
    st' = { st with
            table := st.table ++ [(name, ⟨kind, vType, st.counter.get kind⟩)]
            counter := st.counter.bump kind } := by
  unfold SymbolTable.addVar at h
  cases hg : st.getVarInfo name with
  | some vi => rw [hg] at h; simp at h
  | none =>
    rw [hg] at h
    simp only [Option.isSome_none, Bool.false_eq_true, if_false, Prod.mk.injEq] at h
    exact ⟨rfl, h.2.symm⟩

/-- C7: a successful addVar stores, as the offset of the new name, the
current per-kind counter value, which under the table invariant equals the
number of entries (equivalently, of prior successful additions) of that
same kind; the counter of that kind is incremented by exactly one, the
counters of the other kinds are untouched, counters start at zero in a
fresh table, and the invariant is preserved. -/
theorem addVar_offset_spec (st st' : SymbolTable) (kind : VarKind) (vType name : String)
    (hinv : st.inv) (h : st.addVar kind vType name = (none, st')) :
    st'.getVarInfo name = some ⟨kind, vType, st.kindCount kind⟩ ∧
    st'.counter.get kind = st.counter.get kind + 1 ∧
    (∀ k, k ≠ kind → st'.counter.get k = st.counter.get k) ∧
    st'.inv ∧
    (∀ n k, (NewSymbolTable n).counter.get k = 0) := by
  obtain ⟨hnone, hst'⟩ := addVar_ok_elim st st' kind vType name h
  have hcnt : st.counter.get kind = st.kindCount kind := hinv kind
  refine ⟨?_, ?_, ?_, ?_, ?_⟩
  · rw [hst', ← hcnt]
    have := getVarInfo_append_single st name name ⟨kind, vType, st.counter.get kind⟩ hnone
    simpa using this
  · rw [hst']; simp [counters_get_bump]
  · intro k hk
    rw [hst']
    simp only
    rw [counters_get_bump]
    simp [hk]
  · intro k
    have hkc := kindCount_addVar st kind vType name hnone k
    rw [h] at hkc
    rw [hst'] at hkc ⊢
    simp only at hkc ⊢
    rw [counters_get_bump, hkc, hinv k]
    by_cases hk : k = kind
    · subst hk; simp
    · have : ¬ kind = k := fun hc => hk hc.symm
      simp [hk, this]
  · intro n k
    cases k <;> rfl

/-- Witness for addVar_offset_spec: add a second Field to a table already
holding one Field and one Static entry; the new offset is 1. -/
theorem addVar_offset_spec_witness :
    (let st : SymbolTable :=
      { name := "T"
        table := [("x", ⟨.Field, "int", 0⟩), ("s", ⟨.Static, "int", 0⟩)]
        counter := ⟨1, 1, 0, 0⟩ }
     let st' : SymbolTable :=
      { name := "T"
        table := [("x", ⟨.Field, "int", 0⟩), ("s", ⟨.Static, "int", 0⟩),
                  ("y", ⟨.Field, "boolean", 1⟩)]
        counter := ⟨2, 1, 0, 0⟩ }
     st'.getVarInfo "y" = some ⟨.Field, "boolean", st.kindCount .Field⟩ ∧
     st'.counter.get .Field = st.counter.get .Field + 1 ∧
     (∀ k, k ≠ VarKind.Field → st'.counter.get k = st.counter.get k) ∧
     st'.inv ∧
     (∀ n k, (NewSymbolTable n).counter.get k = 0)) :=
  addVar_offset_spec _ _ .Field "boolean" "y" (by decide) (by decide)

/-- Helper for C8: findAux fails when no table of the list knows the name. -/
lemma findAux_none (name : String) (l : List SymbolTable)
    (h : ∀ t ∈ l, t.getVarInfo name = none) :
    findAux name l = .error ("A variable named \x22" ++ name ++ "\x22 was not declared") := by
  induction l with
  | nil => rfl
  | cons t rest ih =>
    unfold findAux
    rw [h t (List.mem_cons_self t rest)]
    exact ih (fun t' ht' => h t' (List.mem_cons_of_mem t ht'))

/-- C8: name lookup on a stack of symbol tables searches from the innermost
(last-created) table outward: if the innermost table knows the name its
entry is the result, whatever the outer tables contain (shadowing); if the
innermost table does not know the name the search continues in the rest of
the stack; and if no table knows the name the lookup fails with the
UndeclaredVariable error. -/
theorem find_innermost_spec :
    (∀ (ts : List SymbolTable) (t : SymbolTable) (name : String) (vi : VarInfo),
        t.getVarInfo name = some vi →
        SymbolTableList.find (ts ++ [t]) name = .ok vi) ∧
    (∀ (ts : List SymbolTable) (t : SymbolTable) (name : String),
        t.getVarInfo name = none →
        SymbolTableList.find (ts ++ [t]) name = SymbolTableList.find ts name) ∧
    (∀ (ts : List SymbolTable) (name : String),
        (∀ t ∈ ts, t.getVarInfo name = none) →
        SymbolTableList.find ts name =
          .error ("A variable named \x22" ++ name ++ "\x22 was not declared")) := by
  refine ⟨?_, ?_, ?_⟩
  · intro ts t name vi h
    unfold SymbolTableList.find
    rw [List.reverse_append]
    simp only [List.reverse_singleton, List.singleton_append]
    unfold findAux
    rw [h]
  · intro ts t name h
    unfold SymbolTableList.find
    rw [List.reverse_append]
    simp only [List.reverse_singleton, List.singleton_append]
    conv_lhs => rw [findAux]
    rw [h]
  · intro ts name h
    unfold SymbolTableList.find
    exact findAux_none name ts.reverse (fun t ht => h t (List.mem_reverse.mp ht))

/-- Witness for find_innermost_spec: an inner local x shadows an outer
field x, a name only declared outside is still found, and an undeclared
name errors. -/
theorem find_innermost_spec_witness :
    (SymbolTableList.find
        [⟨"C", [("x", ⟨.Field, "int", 0⟩)], ⟨1, 0, 0, 0⟩⟩,
         ⟨"C.f", [("x", ⟨.Local, "boolean", 0⟩)], ⟨0, 0, 0, 1⟩⟩] "x" =
      .ok ⟨.Local, "boolean", 0⟩) ∧
    (SymbolTableList.find
        [⟨"C", [("x", ⟨.Field, "int", 0⟩)], ⟨1, 0, 0, 0⟩⟩,
         ⟨"C.f", [("y", ⟨.Local, "boolean", 0⟩)], ⟨0, 0, 0, 1⟩⟩] "x" =
      .ok ⟨.Field, "int", 0⟩) ∧
    (SymbolTableList.find [⟨"C", [("x", ⟨.Field, "int", 0⟩)], ⟨1, 0, 0, 0⟩⟩] "z" =
      .error ("A variable named \x22z\x22 was not declared")) := by
  refine ⟨?_, ?_, ?_⟩
  · exact find_innermost_spec.1 [⟨"C", [("x", ⟨.Field, "int", 0⟩)], ⟨1, 0, 0, 0⟩⟩]
      ⟨"C.f", [("x", ⟨.Local, "boolean", 0⟩)], ⟨0, 0, 0, 1⟩⟩ "x" ⟨.Local, "boolean", 0⟩ (by decide)
  · exact Eq.trans
      (find_innermost_spec.2.1 [⟨"C", [("x", ⟨.Field, "int", 0⟩)], ⟨1, 0, 0, 0⟩⟩]
        ⟨"C.f", [("y", ⟨.Local, "boolean", 0⟩)], ⟨0, 0, 0, 1⟩⟩ "x" (by decide))
      (by rfl)
  · exact find_innermost_spec.2.2 [⟨"C", [("x", ⟨.Field, "int", 0⟩)], ⟨1, 0, 0, 0⟩⟩] "z"
      (by decide)

/-- C10: AddVar is atomic on failure: when the name is already present the
call returns the DuplicateName error and the table value - the
name-to-VarInfo mapping and every per-kind counter - is exactly the
original one, so a failed addition never consumes an offset. -/
theorem addVar_atomic (st : SymbolTable) (kind : VarKind) (vType name : String)
    (h : (st.getVarInfo name).isSome) :
    st.addVar kind vType name =
      (some ("Var named " ++ name ++ " already in the symbol table " ++ st.name), st) := by
  unfold SymbolTable.addVar
  simp [h]

/-- Witness for addVar_atomic: re-adding x (even with a different kind and
type) fails and leaves the table untouched. -/
theorem addVar_atomic_witness :
    (SymbolTable.addVar ⟨"T", [("x", ⟨.Field, "int", 0⟩)], ⟨1, 0, 0, 0⟩⟩ .Local "boolean" "x" =
      (some "Var named x already in the symbol table T",
       ⟨"T", [("x", ⟨.Field, "int", 0⟩)], ⟨1, 0, 0, 0⟩⟩)) :=
  addVar_atomic ⟨"T", [("x", ⟨.Field, "int", 0⟩)], ⟨1, 0, 0, 0⟩⟩ .Local "boolean" "x" (by decide)

/-! ## Decimal rendering (strconv.Itoa)

The Go code renders offsets, argument counts and label counters with
strconv.Itoa; every rendered value is a non-negative count, so itoa is
modelled on Nat.  The fuel argument of itoaAux only bounds the number of
divide-by-ten iterations; fuel = n is always sufficient. -/

def itoaAux : Nat → Nat → List Char
  | 0, _ => []
  | fuel+1, n => if n = 0 then [] else itoaAux fuel (n / 10) ++ [Nat.digitChar (n % 10)]

def itoa (n : Nat) : String := if n = 0 then "0" else ⟨itoaAux n n⟩

def digitsStep (a : Nat) (c : Char) : Nat := a * 10 + (c.toNat - 48)

def digitsVal (l : List Char) : Nat := l.foldl digitsStep 0

lemma digitChar_toNat (d : Nat) (h : d < 10) : (Nat.digitChar d).toNat = 48 + d := by
  interval_cases d <;> decide

lemma foldl_digitsStep_shift (l : List Char) (a : Nat) :
    l.foldl digitsStep a = a * 10 ^ l.length + digitsVal l := by
  induction l generalizing a with
  | nil => simp [digitsVal]
  | cons c rest ih =>
    simp only [List.foldl_cons, List.length_cons, digitsVal]
    rw [ih, ih (digitsStep 0 c)]
    simp only [digitsStep, Nat.zero_mul, Nat.zero_add]
    ring

lemma digitsVal_append_digit (l : List Char) (c : Char) :
    digitsVal (l ++ [c]) = digitsVal l * 10 + (c.toNat - 48) := by
  unfold digitsVal
  rw [List.foldl_append]
  simp [digitsStep]

lemma digitsVal_itoaAux : ∀ fuel n, n ≤ fuel → digitsVal (itoaAux fuel n) = n := by
  intro fuel
  induction fuel with
  | zero => intro n hn; interval_cases n; rfl
  | succ f ih =>
    intro n hn
    unfold itoaAux
    by_cases h0 : n = 0
    · simp [h0, digitsVal]
    · simp only [h0, if_false]
      rw [digitsVal_append_digit, ih (n / 10) (by omega), digitChar_toNat (n % 10) (by omega)]
      omega

lemma digitsVal_itoa (n : Nat) : digitsVal (itoa n).data = n := by
  unfold itoa
  by_cases h0 : n = 0
  · subst h0; decide
  · simp only [h0, if_false]
    exact digitsVal_itoaAux n n (Nat.le_refl n)

lemma itoa_injective {m n : Nat} (h : itoa m = itoa n) : m = n := by
  have := congrArg (fun s => digitsVal s.data) h
  simpa [digitsVal_itoa] using this

lemma string_append_left_cancel {p a b : String} (h : p ++ a = p ++ b) : a = b := by
  have hd := congrArg String.data h
  simp only [String.data_append] at hd
  have h2 := List.append_cancel_left hd
  cases a; cases b; exact congrArg String.mk h2

/-! ## Tokens (token.go, canonical snapshot with line/pos tracking) -/

/-- TokenType from token.go. -/
inductive TokenType where
  | TokenKeyword
  | TokenIdentifier
  | TokenSymbol
  | TokenStringConst
  | TokenIntegerConst
deriving DecidableEq, Repr

/-- Token from token.go: the five concrete token kinds share the record
shape (value, line, pos); the kind is carried as a tag. -/
structure Token where
  tt : TokenType
  value : String
  line : Nat
  pos : Nat
deriving DecidableEq, Repr

def NewKeywordToken (value : String) (line pos : Nat) : Token :=
  ⟨.TokenKeyword, value, line, pos⟩

def NewIdentifierToken (value : String) (line pos : Nat) : Token :=
  ⟨.TokenIdentifier, value, line, pos⟩

def NewSymbolToken (value : String) (line pos : Nat) : Token :=
  ⟨.TokenSymbol, value, line, pos⟩

def NewStringConstantToken (value : String) (line pos : Nat) : Token :=
  ⟨.TokenStringConst, value, line, pos⟩

def NewIntegerConstantToken (value : String) (line pos : Nat) : Token :=
  ⟨.TokenIntegerConst, value, line, pos⟩

/-! ## Code generator state (compiler.go) -/

/-- MemSegment constants from compiler.go.  ThatSegm is referenced by
nodes.go but its declaration is not among the files under src.
Modelled from the spec: §4.F lists the segments, including that, and
scenario 5 shows the emitted text pop that 0, so ThatSegm renders as
that. -/
inductive MemSegment where
  | ConstSegm
  | LocalSegm
  | ArgSegm
  | ThisSegm
  | TempSegm
  | StaticSegm
  | PointerSegm
  | ThatSegm
deriving DecidableEq, Repr

def MemSegment.str : MemSegment → String
  | .ConstSegm => "constant"
  | .LocalSegm => "local"
  | .ArgSegm => "argument"
  | .ThisSegm => "this"
  | .TempSegm => "temp"
  | .StaticSegm => "static"
  | .PointerSegm => "pointer"
  | .ThatSegm => "that"

/-- GetSegment (the vKinds map) from compiler.go. -/
def GetSegment : VarKind → MemSegment
  | .Field => .ThisSegm
  | .Arg => .ArgSegm
  | .Local => .LocalSegm
  | .Static => .StaticSegm

/-- binaryOps map from compiler.go. -/
def binaryOps : String → Option String
  | "+" => some "add"
  | "-" => some "sub"
  | "&" => some "and"
  | "|" => some "or"
  | "=" => some "eq"
  | ">" => some "gt"
  | "<" => some "lt"
  | _ => none

/-- sysBinaryOps map from compiler.go: operations lowered to OS calls. -/
def sysBinaryOps : String → Option String
  | "*" => some "Math.multiply"
  | "/" => some "Math.divide"
  | _ => none

/-- unaryOps map from compiler.go. -/
def unaryOps : String → Option String
  | "~" => some "not"
  | "-" => some "neg"
  | _ => none

/-- Compiler from compiler.go.  The strings.Builder is modelled as the
list of emitted instruction lines (each WriteString call appends exactly
one newline-terminated line). -/
structure Compiler where
  out : List String
  whileCount : Nat
  ifCount : Nat
  tbl : SymbolTableList
deriving DecidableEq, Repr

/-- NewCompiler from compiler.go: empty output, zero counters, empty
symbol table list. -/
def NewCompiler : Compiler := ⟨[], 0, 0, []⟩

def Compiler.push (c : Compiler) (segm : MemSegment) (offset : String) : Compiler :=
  { c with out := c.out ++ ["push " ++ segm.str ++ " " ++ offset] }

def Compiler.pop (c : Compiler) (segm : MemSegment) (offset : String) : Compiler :=
  { c with out := c.out ++ ["pop " ++ segm.str ++ " " ++ offset] }

def Compiler.functionIns (c : Compiler) (name : String) (localVarCount : Nat) : Compiler :=
  { c with out := c.out ++ ["function " ++ name ++ " " ++ itoa localVarCount] }

def Compiler.callIns (c : Compiler) (name : String) (argsCount : Nat) : Compiler :=
  { c with out := c.out ++ ["call " ++ name ++ " " ++ itoa argsCount] }

def Compiler.returnIns (c : Compiler) : Compiler :=
  { c with out := c.out ++ ["return"] }

/-- Compiler.BinaryOp from compiler.go; the c.error call (a recovered
panic) is an Except error. -/
def Compiler.binaryOp (c : Compiler) (symbol : String) : Except String Compiler :=
  match binaryOps symbol with
  | some cmd => .ok { c with out := c.out ++ [cmd] }
  | none =>
    match sysBinaryOps symbol with
    | some sf => .ok (c.callIns sf 2)
    | none => .error "Undefined binary op"

/-- Compiler.UnaryOp from compiler.go. -/
def Compiler.unaryOp (c : Compiler) (symbol : String) : Except String Compiler :=
  match unaryOps symbol with
  | some cmd => .ok { c with out := c.out ++ [cmd] }
  | none => .error "Undefined unary op"

def Compiler.labelIns (c : Compiler) (name : String) : Compiler :=
  { c with out := c.out ++ ["label " ++ name] }

def Compiler.gotoIns (c : Compiler) (label : String) : Compiler :=
  { c with out := c.out ++ ["goto " ++ label] }

def Compiler.ifGotoIns (c : Compiler) (label : String) : Compiler :=
  { c with out := c.out ++ ["if-goto " ++ label] }

/-- SymbolTableList.Name from table.go; the Go method panics on an empty
list, which Compiler.Run surfaces as an error. -/
def stlName (stl : SymbolTableList) : Except String String :=
  match stl.getLast? with
  | some t => .ok t.name
  | none => .error "There is no symbol tabes"

/-- SymbolTableList.ParentName from table.go (second-innermost table). -/
def stlParentName (stl : SymbolTableList) : Except String String :=
  match stl.dropLast.getLast? with
  | some t => .ok t.name
  | none => .error "There is no parent tables"

/-- SymbolTableList.Count from table.go: indexes the innermost table
without a guard, so an empty list is a (runtime) panic, modelled as an
error. -/
def stlCount (stl : SymbolTableList) (kind : VarKind) : Except String Nat :=
  match stl.getLast? with
  | some t => .ok (t.count kind)
  | none => .error "index out of range"

/-- SymbolTableList.AddVar from table.go: panics (modelled as errors) on
an empty list and on a duplicate name. -/
def stlAddVar (stl : SymbolTableList) (kind : VarKind) (vType name : String) :
    Except String SymbolTableList :=
  match stl.getLast? with
  | none => .error "Symbol table list is empty"
  | some t =>
    match t.addVar kind vType name with
    | (some e, _) => .error e
    | (none, t') => .ok (stl.dropLast ++ [t'])

/-- SymbolTableList.GetVarInfo from table.go: find, panicking (an error
here) when the variable is not declared. -/
def stlGetVarInfo (stl : SymbolTableList) (name : String) : Except String VarInfo :=
  match stl.find name with
  | .ok vi => .ok vi
  | .error _ => .error ("Cannot find variable " ++ name)

/-- Compiler.OpenWhile from compiler.go: builds the two labels from the
innermost table name and the current whileCount, then increments the
counter. -/
def Compiler.openWhile (c : Compiler) : Except String ((String × String) × Compiler) :=
  match stlName c.tbl with
  | .error e => .error e
  | .ok fn =>
    .ok ((fn ++ "$WHILE_BEGIN_" ++ itoa c.whileCount,
          fn ++ "$WHILE_END_" ++ itoa c.whileCount),
         { c with whileCount := c.whileCount + 1 })

/-- Compiler.OpenIf from compiler.go. -/
def Compiler.openIf (c : Compiler) : Except String ((String × String) × Compiler) :=
  match stlName c.tbl with
  | .error e => .error e
  | .ok fn =>
    .ok ((fn ++ "$ELSE_" ++ itoa c.ifCount,
          fn ++ "$IF_END_" ++ itoa c.ifCount),
         { c with ifCount := c.ifCount + 1 })

/-! ## AST (nodes.go) and code generation

The Go Node interface has one Compile method per node struct; the structs
are translated into (mutual) inductives and the Compile methods into
compile functions threading the Compiler state, with Except for the
recovered panics. -/

mutual
/-- ExpressionNode from nodes.go: first term plus parallel lists of
operator tokens and right-hand terms. -/
inductive ExpressionNode where
  | mk (term : TermNode) (ops : List Token) (opTerms : List TermNode)

/-- ExpressionListNode from nodes.go. -/
inductive ExpressionListNode where
  | mk (exprs : List ExpressionNode)

/-- SubroutineCallNode from nodes.go; the optional first identifier is the
class-or-receiver token. -/
inductive SubroutineCallNode where
  | mk (prefixTok : Option Token) (subroutineName : Token) (params : ExpressionListNode)

/-- TermNode from nodes.go with its termNodeType variants. -/
inductive TermNode where
  | intConst (val : Token)
  | strConst (val : Token)
  | keyWordConst (val : Token)
  | thisConst (val : Token)
  | varTerm (val : Token)
  | arrayTerm (val : Token) (arrayIdx : ExpressionNode)
  | exprTerm (exp : ExpressionNode)
  | callTerm (call : SubroutineCallNode)
  | unary (unaryOp : Token) (unaryTerm : TermNode)
end

def ExpressionListNode.len : ExpressionListNode → Nat
  | .mk exprs => exprs.length

/-- String.appendChar loop of the termNodeStrConst case: for each byte of
the string constant, push its code and call String.appendChar. -/
def appendChars (chars : List Char) (c : Compiler) : Compiler :=
  chars.foldl (fun c ch => (c.push .ConstSegm (itoa ch.toNat)).callIns "String.appendChar" 2) c

mutual
/-- ExpressionNode.Compile from nodes.go: length self-check, first term,
then the (op, term) pairs in order. -/
def compileExpressionNode : ExpressionNode → Compiler → Except String Compiler
  | .mk term ops opTerms, c =>
    if ops.length ≠ opTerms.length then
      .error "Expression node is build wrong in operations and terms"
    else
      match compileTermNode term c with
      | .error e => .error e
      | .ok c => compileOpTerms ops opTerms c

/-- Iteration of ExpressionNode.Compile over the (op, term) pairs: compile
the term, then emit the operator. -/
def compileOpTerms : List Token → List TermNode → Compiler → Except String Compiler
  | op :: ops, t :: ts, c =>
    match compileTermNode t c with
    | .error e => .error e
    | .ok c =>
      match c.binaryOp op.value with
      | .error e => .error e
      | .ok c => compileOpTerms ops ts c
  | _, _, c => .ok c

/-- ExpressionListNode.Compile from nodes.go. -/
def compileExpressionList : ExpressionListNode → Compiler → Except String Compiler
  | .mk exprs, c => compileExprs exprs c

def compileExprs : List ExpressionNode → Compiler → Except String Compiler
  | [], c => .ok c
  | e :: es, c =>
    match compileExpressionNode e c with
    | .error err => .error err
    | .ok c => compileExprs es c

/-- SubroutineCallNode.Compile from nodes.go.  Note the order: the
argument expressions are compiled (pushed) first, and only then is the
receiver pushed in the method-call cases. -/
def compileSubroutineCall : SubroutineCallNode → Compiler → Except String Compiler
  | .mk prefixTok subroutineName params, c =>
    match compileExpressionList params c with
    | .error e => .error e
    | .ok c =>
      match prefixTok with
      | some p =>
        if c.tbl.isVar p.value then
          match stlGetVarInfo c.tbl p.value with
          | .error e => .error e
          | .ok vi =>
            let c := c.push (GetSegment vi.kind) (itoa vi.offset)
            .ok (c.callIns (vi.type ++ "." ++ subroutineName.value) (1 + params.len))
        else
          .ok (c.callIns (p.value ++ "." ++ subroutineName.value) params.len)
      | none =>
        match stlParentName c.tbl with
        | .error e => .error e
        | .ok className =>
          let c := c.push .PointerSegm "0"
          .ok (c.callIns (className ++ "." ++ subroutineName.value) (1 + params.len))

/-- TermNode.Compile from nodes.go. -/
def compileTermNode : TermNode → Compiler → Except String Compiler
  | .intConst val, c => .ok (c.push .ConstSegm val.value)
  | .keyWordConst val, c =>
    let c := c.push .ConstSegm "0"
    if val.value = "true" then c.unaryOp "~" else .ok c
  | .thisConst _, c => .ok (c.push .PointerSegm "0")
  | .varTerm val, c =>
    match stlGetVarInfo c.tbl val.value with
    | .error e => .error e
    | .ok vi => .ok (c.push (GetSegment vi.kind) (itoa vi.offset))
  | .exprTerm exp, c => compileExpressionNode exp c
  | .unary op t, c =>
    match compileTermNode t c with
    | .error e => .error e
    | .ok c => c.unaryOp op.value
  | .callTerm call, c => compileSubroutineCall call c
  | .strConst val, c =>
    let c := c.push .ConstSegm (itoa val.value.length)
    let c := c.callIns "String.new" 1
    .ok (appendChars val.value.data c)
  | .arrayTerm val arrayIdx, c =>
    match stlGetVarInfo c.tbl val.value with
    | .error e => .error e
    | .ok vi =>
      let c := c.push (GetSegment vi.kind) (itoa vi.offset)
      match compileExpressionNode arrayIdx c with
      | .error e => .error e
      | .ok c =>
        match c.binaryOp "+" with
        | .error e => .error e
        | .ok c =>
          let c := c.pop .PointerSegm "1"
          .ok (c.push .ThatSegm "0")
end

mutual
/-- StatementsNode from nodes.go. -/
inductive StatementsNode where
  | mk (stList : List StatementNode)

/-- The five statement node structs from nodes.go (LetStatementNode,
IfStatementNode, WhileStatementNode, DoStatementNode,
ReturnStatementNode). -/
inductive StatementNode where
  | letStmt (varName : Token) (arrayExp : Option ExpressionNode) (valueExp : ExpressionNode)
  | ifStmt (ifExpr : ExpressionNode) (ifStat : StatementsNode) (elseStat : Option StatementsNode)
  | whileStmt (expr : ExpressionNode) (stat : StatementsNode)
  | doStmt (call : SubroutineCallNode)
  | returnStmt (expr : Option ExpressionNode)
end

/-- LetStatementNode.Compile from nodes.go. -/
def compileLetStatement (varName : Token) (arrayExp : Option ExpressionNode)
    (valueExp : ExpressionNode) (c : Compiler) : Except String Compiler :=
  match stlGetVarInfo c.tbl varName.value with
  | .error e => .error e
  | .ok vi =>
    let segm := GetSegment vi.kind
    match arrayExp with
    | none =>
      match compileExpressionNode valueExp c with
      | .error e => .error e
      | .ok c => .ok (c.pop segm (itoa vi.offset))
    | some arrExp =>
      let c := c.push segm (itoa vi.offset)
      match compileExpressionNode arrExp c with
      | .error e => .error e
      | .ok c =>
        match c.binaryOp "+" with
        | .error e => .error e
        | .ok c =>
          match compileExpressionNode valueExp c with
          | .error e => .error e
          | .ok c =>
            let c := c.pop .TempSegm "0"
            let c := c.pop .PointerSegm "1"
            let c := c.push .TempSegm "0"
            .ok (c.pop .ThatSegm "0")

/-- DoStatementNode.Compile from nodes.go. -/
def compileDoStatement (call : SubroutineCallNode) (c : Compiler) : Except String Compiler :=
  match compileSubroutineCall call c with
  | .error e => .error e
  | .ok c => .ok (c.pop .TempSegm "0")

/-- ReturnStatementNode.Compile from nodes.go. -/
def compileReturnStatement (expr : Option ExpressionNode) (c : Compiler) :
    Except String Compiler :=
  match expr with
  | some e =>
    match compileExpressionNode e c with
    | .error err => .error err
    | .ok c => .ok c.returnIns
  | none => .ok ((c.push .ConstSegm "0").returnIns)

mutual
/-- StatementsNode.Compile from nodes.go. -/
def compileStatementsNode : StatementsNode → Compiler → Except String Compiler
  | .mk stList, c => compileStList stList c

def compileStList : List StatementNode → Compiler → Except String Compiler
  | [], c => .ok c
  | st :: rest, c =>
    match compileStatementNode st c with
    | .error e => .error e
    | .ok c => compileStList rest c

/-- Compile methods of the statement nodes from nodes.go; the
non-recursive let, do and return cases delegate to the standalone
functions above. -/
def compileStatementNode : StatementNode → Compiler → Except String Compiler
  | .letStmt varName arrayExp valueExp, c => compileLetStatement varName arrayExp valueExp c
  | .ifStmt ifExpr ifStat elseStat, c =>
    -- IfStatementNode.Compile.  The Go method tests ElseStat != nil twice;
    -- here the two resulting paths are split once after the not, with
    -- identical emitted code on both reorderings.
    match c.openIf with
    | .error e => .error e
    | .ok ((elseLabel, endLabel), c) =>
      match compileExpressionNode ifExpr c with
      | .error e => .error e
      | .ok c =>
        match c.unaryOp "~" with
        | .error e => .error e
        | .ok c =>
          match elseStat with
          | some es =>
            match compileStatementsNode ifStat (c.ifGotoIns elseLabel) with
            | .error e => .error e
            | .ok c =>
              match compileStatementsNode es ((c.gotoIns endLabel).labelIns elseLabel) with
              | .error e => .error e
              | .ok c => .ok (c.labelIns endLabel)
          | none =>
            match compileStatementsNode ifStat (c.ifGotoIns endLabel) with
            | .error e => .error e
            | .ok c => .ok (c.labelIns endLabel)
  | .whileStmt expr stat, c =>
    -- WhileStatementNode.Compile
    match c.openWhile with
    | .error e => .error e
    | .ok ((bLabel, eLabel), c) =>
      match compileExpressionNode expr (c.labelIns bLabel) with
      | .error e => .error e
      | .ok c =>
        match c.unaryOp "~" with
        | .error e => .error e
        | .ok c =>
          match compileStatementsNode stat (c.ifGotoIns eLabel) with
          | .error e => .error e
          | .ok c => .ok ((c.gotoIns bLabel).labelIns eLabel)
  | .doStmt call, c => compileDoStatement call c
  | .returnStmt expr, c => compileReturnStatement expr c
end

lemma compileStatementNode_letStmt (varName : Token) (arrayExp : Option ExpressionNode)
    (valueExp : ExpressionNode) (c : Compiler) :
    compileStatementNode (.letStmt varName arrayExp valueExp) c =
      compileLetStatement varName arrayExp valueExp c := rfl

lemma compileStatementNode_doStmt (call : SubroutineCallNode) (c : Compiler) :
    compileStatementNode (.doStmt call) c = compileDoStatement call c := rfl

lemma compileStatementNode_returnStmt (expr : Option ExpressionNode) (c : Compiler) :
    compileStatementNode (.returnStmt expr) c = compileReturnStatement expr c := rfl

lemma compileStatementsNode_mk (stList : List StatementNode) (c : Compiler) :
    compileStatementsNode (.mk stList) c = compileStList stList c := rfl

lemma compileStList_nil (c : Compiler) : compileStList [] c = .ok c := rfl

lemma compileStList_cons (st : StatementNode) (rest : List StatementNode) (c : Compiler) :
    compileStList (st :: rest) c =
      match compileStatementNode st c with
      | .error e => .error e
      | .ok c => compileStList rest c := rfl

/-- VarDecNode from nodes.go. -/
structure VarDecNode where
  varType : Token
  ids : List Token

def VarDecNode.len (vdn : VarDecNode) : Nat := vdn.ids.length

/-- VarDecNode.Compile from nodes.go: registers each id as a Local. -/
def compileVarDecNode (vdn : VarDecNode) (c : Compiler) : Except String Compiler :=
  vdn.ids.foldlM
    (fun c id =>
      match stlAddVar c.tbl .Local vdn.varType.value id.value with
      | .error e => .error e
      | .ok tbl => .ok { c with tbl := tbl })
    c

/-- ParameterListNode from nodes.go: parallel type and name token lists. -/
structure ParameterListNode where
  varTypes : List Token
  varNames : List Token

/-- ParameterListNode.Compile from nodes.go: registers each parameter as
an Arg.  The Go loop indexes varNames with the varTypes index, so a
shorter varNames slice is an index-out-of-range panic, modelled as an
error. -/
def compileParams : List Token → List Token → Compiler → Except String Compiler
  | [], _, c => .ok c
  | vt :: vts, vn :: vns, c =>
    match stlAddVar c.tbl .Arg vt.value vn.value with
    | .error e => .error e
    | .ok tbl => compileParams vts vns { c with tbl := tbl }
  | _ :: _, [], _ => .error "index out of range"

def compileParameterList (pln : ParameterListNode) (c : Compiler) : Except String Compiler :=
  compileParams pln.varTypes pln.varNames c

/-- SubroutineBodyNode from nodes.go. -/
structure SubroutineBodyNode where
  varDec : List VarDecNode
  statm : StatementsNode

/-- SubroutineBodyNode.LocalVarLen from nodes.go. -/
def SubroutineBodyNode.localVarLen (sbn : SubroutineBodyNode) : Nat :=
  (sbn.varDec.map VarDecNode.len).sum

/-- SubroutineBodyNode.Compile from nodes.go. -/
def compileSubroutineBody (sbn : SubroutineBodyNode) (c : Compiler) : Except String Compiler :=
  match sbn.varDec.foldlM (fun c vd => compileVarDecNode vd c) c with
  | .error e => .error e
  | .ok c => compileStatementsNode sbn.statm c

/-- SubroutineDecNode from nodes.go. -/
structure SubroutineDecNode where
  sbrKind : Token
  returnType : Token
  name : Token
  paramList : ParameterListNode
  body : SubroutineBodyNode

/-- SubroutineDecNode.Compile from nodes.go: capture the field count and
class name from the (still innermost) class table, open the subroutine
table, emit the function header, the constructor or method prologue, the
parameters and the body, then close the table. -/
def compileSubroutineDec (sdn : SubroutineDecNode) (c : Compiler) : Except String Compiler :=
  match stlCount c.tbl .Field with
  | .error e => .error e
  | .ok fieldsCount =>
    match stlName c.tbl with
    | .error e => .error e
    | .ok className =>
      let fn := className ++ "." ++ sdn.name.value
      let c := { c with tbl := c.tbl.createTable fn }
      let c := c.functionIns fn sdn.body.localVarLen
      let c :=
        if sdn.sbrKind.value = "constructor" then
          (((c.push .ConstSegm (itoa fieldsCount)).callIns "Memory.alloc" 1).pop .PointerSegm "0")
        else c
      let step : Except String Compiler :=
        if sdn.sbrKind.value = "method" then
          match stlAddVar c.tbl .Arg className "this" with
          | .error e => .error e
          | .ok tbl => .ok (({ c with tbl := tbl }.push .ArgSegm "0").pop .PointerSegm "0")
        else .ok c
      match step with
      | .error e => .error e
      | .ok c =>
        match compileParameterList sdn.paramList c with
        | .error e => .error e
        | .ok c =>
          match compileSubroutineBody sdn.body c with
          | .error e => .error e
          | .ok c => .ok { c with tbl := c.tbl.closeTable }

/-- ClassVarDecNode from nodes.go. -/
structure ClassVarDecNode where
  kind : Token
  varType : Token
  names : List Token

/-- ClassVarDecNode.Compile from nodes.go: field registers Field vars,
anything else Static. -/
def compileClassVarDec (cvd : ClassVarDecNode) (c : Compiler) : Except String Compiler :=
  let vk : VarKind := if cvd.kind.value = "field" then .Field else .Static
  cvd.names.foldlM
    (fun c n =>
      match stlAddVar c.tbl vk cvd.varType.value n.value with
      | .error e => .error e
      | .ok tbl => .ok { c with tbl := tbl })
    c

/-- ClassNode from nodes.go. -/
structure ClassNode where
  name : Token
  varDec : List ClassVarDecNode
  sbrDec : List SubroutineDecNode

/-- ClassNode.Compile from nodes.go. -/
def compileClassNode (cn : ClassNode) (c : Compiler) : Except String Compiler :=
  let c := { c with tbl := c.tbl.createTable cn.name.value }
  match cn.varDec.foldlM (fun c vd => compileClassVarDec vd c) c with
  | .error e => .error e
  | .ok c =>
    match cn.sbrDec.foldlM (fun c sbr => compileSubroutineDec sbr c) c with
    | .error e => .error e
    | .ok c => .ok { c with tbl := c.tbl.closeTable }

/-! ## Output-frame lemmas for the expression layer

Every compile function of the expression layer only appends to the output
buffer: the symbol tables and both label counters are untouched, and the
emitted lines do not depend on the lines already in the buffer. -/

def Compiler.withOut (c : Compiler) (o : List String) : Compiler := { c with out := o }

@[simp] lemma withOut_out (c : Compiler) (o : List String) : (c.withOut o).out = o := rfl

@[simp] lemma withOut_tbl (c : Compiler) (o : List String) : (c.withOut o).tbl = c.tbl := rfl

@[simp] lemma withOut_whileCount (c : Compiler) (o : List String) :
    (c.withOut o).whileCount = c.whileCount := rfl

@[simp] lemma withOut_ifCount (c : Compiler) (o : List String) :
    (c.withOut o).ifCount = c.ifCount := rfl

@[simp] lemma withOut_withOut (c : Compiler) (o o' : List String) :
    (c.withOut o).withOut o' = c.withOut o' := rfl

@[simp] lemma withOut_self_out (c : Compiler) : c.withOut c.out = c := rfl

lemma push_withOut (c : Compiler) (s : MemSegment) (off : String) :
    c.push s off = c.withOut (c.out ++ ["push " ++ s.str ++ " " ++ off]) := rfl

lemma pop_withOut (c : Compiler) (s : MemSegment) (off : String) :
    c.pop s off = c.withOut (c.out ++ ["pop " ++ s.str ++ " " ++ off]) := rfl

lemma callIns_withOut (c : Compiler) (n : String) (k : Nat) :
    c.callIns n k = c.withOut (c.out ++ ["call " ++ n ++ " " ++ itoa k]) := rfl

/-- The single line emitted by Compiler.BinaryOp for a given operator
symbol, when the symbol is a known operator. -/
def binOpLine (s : String) : Option String :=
  match binaryOps s with
  | some cmd => some cmd
  | none =>
    match sysBinaryOps s with
    | some sf => some ("call " ++ sf ++ " " ++ itoa 2)
    | none => none

lemma binaryOp_ok_elim (c c' : Compiler) (s : String) (h : c.binaryOp s = .ok c') :
    ∃ l, binOpLine s = some l ∧ c' = c.withOut (c.out ++ [l]) := by
  unfold Compiler.binaryOp at h
  unfold binOpLine
  cases h1 : binaryOps s with
  | some cmd =>
    rw [h1] at h
    exact ⟨cmd, rfl, (Except.ok.inj h).symm⟩
  | none =>
    rw [h1] at h
    cases h2 : sysBinaryOps s with
    | some sf =>
      rw [h2] at h
      exact ⟨_, rfl, (Except.ok.inj h).symm⟩
    | none => rw [h2] at h; cases h

lemma binaryOp_apply (c : Compiler) (s l : String) (h : binOpLine s = some l) :
    c.binaryOp s = .ok (c.withOut (c.out ++ [l])) := by
  unfold binOpLine at h
  unfold Compiler.binaryOp
  cases h1 : binaryOps s with
  | some cmd => rw [h1] at h; cases h; rfl
  | none =>
    rw [h1] at h
    cases h2 : sysBinaryOps s with
    | some sf => rw [h2] at h; cases h; rfl
    | none => rw [h2] at h; cases h

lemma unaryOp_ok_elim (c c' : Compiler) (s : String) (h : c.unaryOp s = .ok c') :
    ∃ cmd, unaryOps s = some cmd ∧ c' = c.withOut (c.out ++ [cmd]) := by
  unfold Compiler.unaryOp at h
  cases h1 : unaryOps s with
  | some cmd => rw [h1] at h; exact ⟨cmd, rfl, (Except.ok.inj h).symm⟩
  | none => rw [h1] at h; cases h

lemma unaryOp_apply (c : Compiler) (s cmd : String) (h : unaryOps s = some cmd) :
    c.unaryOp s = .ok (c.withOut (c.out ++ [cmd])) := by
  unfold Compiler.unaryOp
  rw [h]
  rfl

/-- Lines emitted by the String.appendChar loop of the string-constant
case. -/
def appendCharsDelta (chars : List Char) : List String :=
  chars.flatMap (fun ch =>
    ["push constant " ++ itoa ch.toNat, "call String.appendChar " ++ itoa 2])

lemma appendChars_withOut (chars : List Char) (c : Compiler) :
    appendChars chars c = c.withOut (c.out ++ appendCharsDelta chars) := by
  induction chars generalizing c with
  | nil => simp [appendChars, appendCharsDelta]
  | cons ch rest ih =>
    unfold appendChars at ih ⊢
    simp only [List.foldl_cons]
    rw [ih]
    simp [appendCharsDelta, Compiler.push, Compiler.callIns, Compiler.withOut,
      MemSegment.str, List.append_assoc]

mutual

/-- Frame property of ExpressionNode.Compile: it only appends output. -/
theorem frameExpr (e : ExpressionNode) (c c' : Compiler)
    (h : compileExpressionNode e c = .ok c') :
    ∃ δ, c' = c.withOut (c.out ++ δ) ∧
      ∀ o, compileExpressionNode e (c.withOut o) = .ok (c.withOut (o ++ δ)) := by
  obtain ⟨t, ops, opTerms⟩ := e
  simp only [compileExpressionNode] at h ⊢
  by_cases hlen : ops.length ≠ opTerms.length
  · rw [if_pos hlen] at h; cases h
  · rw [if_neg hlen] at h
    cases ht : compileTermNode t c with
    | error e => rw [ht] at h; cases h
    | ok c1 =>
      rw [ht] at h
      obtain ⟨δ1, hc1, htr1⟩ := frameTerm t c c1 ht
      subst hc1
      obtain ⟨δ2, hc2, htr2⟩ := frameOpTerms ops opTerms _ c' h
      refine ⟨δ1 ++ δ2, ?_, ?_⟩
      · rw [hc2]; simp [List.append_assoc]
      · intro o
        rw [if_neg hlen, htr1 o]
        have := htr2 (o ++ δ1)
        simp only [withOut_withOut, withOut_out] at this ⊢
        rw [this]
        simp [List.append_assoc]

/-- Frame property of the (op, term) iteration of ExpressionNode.Compile. -/
theorem frameOpTerms (ops : List Token) (ts : List TermNode) (c c' : Compiler)
    (h : compileOpTerms ops ts c = .ok c') :
    ∃ δ, c' = c.withOut (c.out ++ δ) ∧
      ∀ o, compileOpTerms ops ts (c.withOut o) = .ok (c.withOut (o ++ δ)) := by
  match ops, ts with
  | [], _ =>
    simp only [compileOpTerms] at h
    cases h
    exact ⟨[], by simp, fun o => by simp [compileOpTerms]⟩
  | op :: ops', [] =>
    simp only [compileOpTerms] at h
    cases h
    exact ⟨[], by simp, fun o => by simp [compileOpTerms]⟩
  | op :: ops', t :: ts' =>
    simp only [compileOpTerms] at h ⊢
    cases ht : compileTermNode t c with
    | error e => rw [ht] at h; cases h
    | ok c1 =>
      rw [ht] at h
      obtain ⟨δ1, hc1, htr1⟩ := frameTerm t c c1 ht
      subst hc1
      dsimp only at h
      cases hb : (c.withOut (c.out ++ δ1)).binaryOp op.value with
      | error e => rw [hb] at h; cases h
      | ok c2 =>
        rw [hb] at h
        dsimp only at h
        obtain ⟨l, hl, hc2⟩ := binaryOp_ok_elim _ _ _ hb
        subst hc2
        simp only [withOut_withOut, withOut_out] at h
        obtain ⟨δ3, hc3, htr3⟩ := frameOpTerms ops' ts' _ c' h
        refine ⟨δ1 ++ [l] ++ δ3, ?_, ?_⟩
        · rw [hc3]; simp [List.append_assoc]
        · intro o
          rw [htr1 o]
          dsimp only
          rw [binaryOp_apply _ _ _ hl]
          dsimp only
          have := htr3 ((o ++ δ1) ++ [l])
          simp only [withOut_withOut, withOut_out] at this ⊢
          rw [this]
          simp [List.append_assoc]

/-- Frame property of ExpressionListNode.Compile. -/
theorem frameExprList (el : ExpressionListNode) (c c' : Compiler)
    (h : compileExpressionList el c = .ok c') :
    ∃ δ, c' = c.withOut (c.out ++ δ) ∧
      ∀ o, compileExpressionList el (c.withOut o) = .ok (c.withOut (o ++ δ)) := by
  obtain ⟨exprs⟩ := el
  simp only [compileExpressionList] at h ⊢
  exact frameExprs exprs c c' h

theorem frameExprs (es : List ExpressionNode) (c c' : Compiler)
    (h : compileExprs es c = .ok c') :
    ∃ δ, c' = c.withOut (c.out ++ δ) ∧
      ∀ o, compileExprs es (c.withOut o) = .ok (c.withOut (o ++ δ)) := by
  match es with
  | [] =>
    simp only [compileExprs] at h
    cases h
    exact ⟨[], by simp, fun o => by simp [compileExprs]⟩
  | e :: es' =>
    simp only [compileExprs] at h ⊢
    cases he : compileExpressionNode e c with
    | error err => rw [he] at h; cases h
    | ok c1 =>
      rw [he] at h
      obtain ⟨δ1, hc1, htr1⟩ := frameExpr e c c1 he
      subst hc1
      obtain ⟨δ2, hc2, htr2⟩ := frameExprs es' _ c' h
      refine ⟨δ1 ++ δ2, ?_, ?_⟩
      · rw [hc2]; simp [List.append_assoc]
      · intro o
        rw [htr1 o]
        have := htr2 (o ++ δ1)
        simp only [withOut_withOut, withOut_out] at this ⊢
        rw [this]
        simp [List.append_assoc]

/-- Frame property of SubroutineCallNode.Compile. -/
theorem frameCall (sc : SubroutineCallNode) (c c' : Compiler)
    (h : compileSubroutineCall sc c = .ok c') :
    ∃ δ, c' = c.withOut (c.out ++ δ) ∧
      ∀ o, compileSubroutineCall sc (c.withOut o) = .ok (c.withOut (o ++ δ)) := by
  obtain ⟨prefixTok, subroutineName, params⟩ := sc
  simp only [compileSubroutineCall] at h ⊢
  cases hp : compileExpressionList params c with
  | error e => rw [hp] at h; cases h
  | ok c1 =>
    rw [hp] at h
    obtain ⟨δ1, hc1, htr1⟩ := frameExprList params c c1 hp
    subst hc1
    cases prefixTok with
    | some p =>
      simp only at h ⊢
      by_cases hv : (c.tbl.isVar p.value) = true
      · simp only [withOut_tbl, hv, if_true] at h ⊢
        cases hg : stlGetVarInfo c.tbl p.value with
        | error e => rw [hg] at h; cases h
        | ok vi =>
          rw [hg] at h
          cases h
          refine ⟨δ1 ++ ["push " ++ (GetSegment vi.kind).str ++ " " ++ itoa vi.offset,
              "call " ++ (vi.type ++ "." ++ subroutineName.value) ++ " " ++ itoa (1 + params.len)],
            ?_, ?_⟩
          · simp [Compiler.push, Compiler.callIns, Compiler.withOut, List.append_assoc]
          · intro o
            rw [htr1 o]
            dsimp only
            simp only [withOut_tbl, hv, if_true, hg]
            simp [Compiler.push, Compiler.callIns, Compiler.withOut, List.append_assoc]
      · simp only [withOut_tbl, hv, if_false] at h ⊢
        cases h
        refine ⟨δ1 ++ ["call " ++ (p.value ++ "." ++ subroutineName.value) ++ " " ++
            itoa params.len], ?_, ?_⟩
        · simp [Compiler.callIns, Compiler.withOut, List.append_assoc]
        · intro o
          rw [htr1 o]
          dsimp only
          simp only [withOut_tbl, hv, if_false]
          simp [Compiler.callIns, Compiler.withOut, List.append_assoc]
    | none =>
      simp only [withOut_tbl] at h ⊢
      cases hpn : stlParentName c.tbl with
      | error e => rw [hpn] at h; cases h
      | ok className =>
        rw [hpn] at h
        cases h
        refine ⟨δ1 ++ ["push " ++ MemSegment.PointerSegm.str ++ " " ++ "0",
            "call " ++ (className ++ "." ++ subroutineName.value) ++ " " ++ itoa (1 + params.len)],
          ?_, ?_⟩
        · simp [Compiler.push, Compiler.callIns, Compiler.withOut, List.append_assoc]
        · intro o
          rw [htr1 o]
          dsimp only
          simp only [withOut_tbl, hpn]
          simp [Compiler.push, Compiler.callIns, Compiler.withOut, List.append_assoc]

/-- Frame property of TermNode.Compile. -/
theorem frameTerm (t : TermNode) (c c' : Compiler)
    (h : compileTermNode t c = .ok c') :
    ∃ δ, c' = c.withOut (c.out ++ δ) ∧
      ∀ o, compileTermNode t (c.withOut o) = .ok (c.withOut (o ++ δ)) := by
  match t with
  | .intConst val =>
    simp only [compileTermNode] at h ⊢
    cases h
    exact ⟨_, rfl, fun o => rfl⟩
  | .keyWordConst val =>
    simp only [compileTermNode] at h ⊢
    by_cases htrue : val.value = "true"
    · rw [if_pos htrue] at h
      obtain ⟨cmd, hcmd, hc'⟩ := unaryOp_ok_elim _ _ _ h
      subst hc'
      refine ⟨["push " ++ MemSegment.ConstSegm.str ++ " " ++ "0", cmd], ?_, ?_⟩
      · simp [Compiler.push, Compiler.withOut, List.append_assoc]
      · intro o
        rw [if_pos htrue]
        have := unaryOp_apply ((c.withOut o).push .ConstSegm "0") _ _ hcmd
        rw [this]
        simp [Compiler.push, Compiler.withOut, List.append_assoc]
    · rw [if_neg htrue] at h
      cases h
      refine ⟨_, rfl, fun o => ?_⟩
      rw [if_neg htrue]
      rfl
  | .thisConst val =>
    simp only [compileTermNode] at h ⊢
    cases h
    exact ⟨_, rfl, fun o => rfl⟩
  | .varTerm val =>
    simp only [compileTermNode] at h ⊢
    cases hg : stlGetVarInfo c.tbl val.value with
    | error e => rw [hg] at h; cases h
    | ok vi =>
      rw [hg] at h
      cases h
      refine ⟨_, rfl, fun o => ?_⟩
      simp only [withOut_tbl, hg]
      rfl
  | .exprTerm exp =>
    simp only [compileTermNode] at h ⊢
    exact frameExpr exp c c' h
  | .unary op t' =>
    simp only [compileTermNode] at h ⊢
    cases ht : compileTermNode t' c with
    | error e => rw [ht] at h; cases h
    | ok c1 =>
      rw [ht] at h
      obtain ⟨δ1, hc1, htr1⟩ := frameTerm t' c c1 ht
      subst hc1
      dsimp only at h
      obtain ⟨cmd, hcmd, hc'⟩ := unaryOp_ok_elim _ _ _ h
      subst hc'
      refine ⟨δ1 ++ [cmd], ?_, ?_⟩
      · simp [List.append_assoc]
      · intro o
        rw [htr1 o]
        dsimp only
        rw [unaryOp_apply _ _ _ hcmd]
        simp [List.append_assoc]
  | .callTerm call =>
    simp only [compileTermNode] at h ⊢
    exact frameCall call c c' h
  | .strConst val =>
    simp only [compileTermNode] at h ⊢
    cases h
    rw [appendChars_withOut]
    refine ⟨["push " ++ MemSegment.ConstSegm.str ++ " " ++ itoa val.value.length,
        "call " ++ "String.new" ++ " " ++ itoa 1] ++ appendCharsDelta val.value.data,
      ?_, fun o => ?_⟩
    · simp [Compiler.push, Compiler.callIns, Compiler.withOut, List.append_assoc]
    · rw [appendChars_withOut]
      simp [Compiler.push, Compiler.callIns, Compiler.withOut, List.append_assoc]
  | .arrayTerm val arrayIdx =>
    simp only [compileTermNode] at h ⊢
    cases hg : stlGetVarInfo c.tbl val.value with
    | error e => rw [hg] at h; cases h
    | ok vi =>
      rw [hg] at h
      dsimp only at h
      cases hi : compileExpressionNode arrayIdx (c.push (GetSegment vi.kind) (itoa vi.offset)) with
      | error e => rw [hi] at h; cases h
      | ok c1 =>
        rw [hi] at h
        obtain ⟨δ1, hc1, htr1⟩ := frameExpr arrayIdx _ c1 hi
        subst hc1
        dsimp only at h
        cases hb : ((c.push (GetSegment vi.kind) (itoa vi.offset)).withOut
            ((c.push (GetSegment vi.kind) (itoa vi.offset)).out ++ δ1)).binaryOp "+" with
        | error e => rw [hb] at h; cases h
        | ok c2 =>
          rw [hb] at h
          dsimp only at h
          obtain ⟨l, hl, hc2⟩ := binaryOp_ok_elim _ _ _ hb
          subst hc2
          cases h
          refine ⟨["push " ++ (GetSegment vi.kind).str ++ " " ++ itoa vi.offset] ++ δ1 ++
              [l, "pop " ++ MemSegment.PointerSegm.str ++ " " ++ "1",
               "push " ++ MemSegment.ThatSegm.str ++ " " ++ "0"], ?_, ?_⟩
          · simp [Compiler.push, Compiler.pop, Compiler.withOut, List.append_assoc]
          · intro o
            simp only [withOut_tbl, hg]
            have ht1 := htr1 ((c.withOut o).push (GetSegment vi.kind) (itoa vi.offset)).out
            simp only [withOut_withOut] at ht1 ⊢
            rw [show ((c.withOut o).push (GetSegment vi.kind) (itoa vi.offset)) =
                (c.push (GetSegment vi.kind) (itoa vi.offset)).withOut
                  (((c.withOut o).push (GetSegment vi.kind) (itoa vi.offset)).out) from rfl]
            rw [ht1]
            dsimp only
            rw [binaryOp_apply _ _ _ hl]
            simp only [withOut_withOut, withOut_out]
            simp [Compiler.push, Compiler.pop, Compiler.withOut, List.append_assoc]

end

/-- Decomposition of the (op, term) iteration: each pair contributes the
term's code followed by the single lowered operator line. -/
lemma opTerms_decompose (ops : List Token) (ts : List TermNode) (c c' : Compiler)
    (h : compileOpTerms ops ts c = .ok c') (hlen : ops.length = ts.length) :
    ∃ δs : List (List String), δs.length = ops.length ∧
      c' = c.withOut (c.out ++ δs.flatten) ∧
      ∀ i (hi : i < ops.length) (hi' : i < ts.length) (hs : i < δs.length),
        ∃ δt l,
          compileTermNode (ts.get ⟨i, hi'⟩) (c.withOut []) = .ok (c.withOut δt) ∧
          binOpLine (ops.get ⟨i, hi⟩).value = some l ∧
          δs.get ⟨i, hs⟩ = δt ++ [l] := by
  induction ops generalizing ts c c' with
  | nil =>
    simp only [compileOpTerms] at h
    cases h
    exact ⟨[], rfl, by simp, fun i hi => absurd hi (Nat.not_lt_zero i)⟩
  | cons op ops' ih =>
    cases ts with
    | nil => simp at hlen
    | cons t ts' =>
      simp only [compileOpTerms] at h
      cases ht : compileTermNode t c with
      | error e => rw [ht] at h; cases h
      | ok c1 =>
        rw [ht] at h
        dsimp only at h
        obtain ⟨δt, hc1, htr⟩ := frameTerm t c c1 ht
        subst hc1
        cases hb : (c.withOut (c.out ++ δt)).binaryOp op.value with
        | error e => rw [hb] at h; cases h
        | ok c2 =>
          rw [hb] at h
          dsimp only at h
          obtain ⟨l, hl, hc2⟩ := binaryOp_ok_elim _ _ _ hb
          subst hc2
          simp only [withOut_withOut, withOut_out] at h
          obtain ⟨δs', hlen', hc', hidx⟩ :=
            ih ts' _ c' h (by simpa using hlen)
          refine ⟨(δt ++ [l]) :: δs', by simpa using hlen', ?_, ?_⟩
          · rw [hc']
            simp [List.append_assoc]
          · intro i hi hi' hs
            cases i with
            | zero =>
              refine ⟨δt, l, ?_, hl, rfl⟩
              have := htr []
              simpa using this
            | succ j =>
              have hj : j < ops'.length := by simpa using hi
              have hj' : j < ts'.length := by simpa using hi'
              have hjs : j < δs'.length := by simpa using hs
              obtain ⟨δt', l', h1, h2, h3⟩ := hidx j hj hj' hjs
              exact ⟨δt', l', h1, h2, h3⟩

/-- C4: confirmed.  Compiling an expression first compiles the first term,
then, for each (op, term) pair in source order, compiles the term and then
emits the single lowered operator line; the seven plain operators lower to
add sub and or eq gt lt, while star and slash lower to the OS calls
call Math.multiply 2 and call Math.divide 2.  The emitted code is the
concatenation in that order, so evaluation is strictly left-to-right with
no operator precedence. -/
theorem expression_left_to_right_spec (t : TermNode) (ops : List Token)
    (opTerms : List TermNode) (c c' : Compiler)
    (h : compileExpressionNode (.mk t ops opTerms) c = .ok c') :
    ops.length = opTerms.length ∧
    (∃ (δ0 : List String) (δs : List (List String)),
      compileTermNode t (c.withOut []) = .ok (c.withOut δ0) ∧
      δs.length = ops.length ∧
      (∀ i (hi : i < ops.length) (hi' : i < opTerms.length) (hs : i < δs.length),
        ∃ δt l,
          compileTermNode (opTerms.get ⟨i, hi'⟩) (c.withOut []) = .ok (c.withOut δt) ∧
          binOpLine (ops.get ⟨i, hi⟩).value = some l ∧
          δs.get ⟨i, hs⟩ = δt ++ [l]) ∧
      c'.out = c.out ++ δ0 ++ δs.flatten) ∧
    binOpLine "+" = some "add" ∧ binOpLine "-" = some "sub" ∧
    binOpLine "&" = some "and" ∧ binOpLine "|" = some "or" ∧
    binOpLine "=" = some "eq" ∧ binOpLine ">" = some "gt" ∧
    binOpLine "<" = some "lt" ∧ binOpLine "*" = some "call Math.multiply 2" ∧
    binOpLine "/" = some "call Math.divide 2" := by
  simp only [compileExpressionNode] at h
  by_cases hlen : ops.length ≠ opTerms.length
  · rw [if_pos hlen] at h; cases h
  · rw [if_neg hlen] at h
    push_neg at hlen
    cases ht : compileTermNode t c with
    | error e => rw [ht] at h; cases h
    | ok c1 =>
      rw [ht] at h
      obtain ⟨δ0, hc1, htr⟩ := frameTerm t c c1 ht
      subst hc1
      obtain ⟨δs, hlen', hc', hidx⟩ := opTerms_decompose ops opTerms _ c' h hlen
      refine ⟨hlen, ⟨δ0, δs, ?_, hlen', hidx, ?_⟩, by decide⟩
      · have := htr []
        simpa using this
      · rw [hc']
        simp [List.append_assoc]

/-- Witness for expression_left_to_right_spec: compiling 1 + 2 * 3 in a
fresh compiler yields push 1, push 2, add, push 3, call Math.multiply 2 -
the claimed flat left-to-right shape. -/
theorem expression_left_to_right_spec_witness :
    ([⟨.TokenSymbol, "+", 1, 1⟩, ⟨.TokenSymbol, "*", 1, 1⟩] : List Token).length =
      ([.intConst ⟨.TokenIntegerConst, "2", 1, 1⟩,
        .intConst ⟨.TokenIntegerConst, "3", 1, 1⟩] : List TermNode).length ∧
    (∃ (δ0 : List String) (δs : List (List String)),
      compileTermNode (.intConst ⟨.TokenIntegerConst, "1", 1, 1⟩) (NewCompiler.withOut []) =
        .ok (NewCompiler.withOut δ0) ∧
      δs.length = ([⟨.TokenSymbol, "+", 1, 1⟩, ⟨.TokenSymbol, "*", 1, 1⟩] : List Token).length ∧
      (∀ i (hi : i < ([⟨.TokenSymbol, "+", 1, 1⟩, ⟨.TokenSymbol, "*", 1, 1⟩] : List Token).length)
        (hi' : i < ([.intConst ⟨.TokenIntegerConst, "2", 1, 1⟩,
                     .intConst ⟨.TokenIntegerConst, "3", 1, 1⟩] : List TermNode).length)
        (hs : i < δs.length),
        ∃ δt l,
          compileTermNode (([.intConst ⟨.TokenIntegerConst, "2", 1, 1⟩,
              .intConst ⟨.TokenIntegerConst, "3", 1, 1⟩] : List TermNode).get ⟨i, hi'⟩)
              (NewCompiler.withOut []) =
            .ok (NewCompiler.withOut δt) ∧
          binOpLine ((([⟨.TokenSymbol, "+", 1, 1⟩, ⟨.TokenSymbol, "*", 1, 1⟩] :
              List Token).get ⟨i, hi⟩).value) = some l ∧
          δs.get ⟨i, hs⟩ = δt ++ [l]) ∧
      ((NewCompiler.withOut
          ["push constant 1", "push constant 2", "add",
           "push constant 3", "call Math.multiply 2"]).out = NewCompiler.out ++ δ0 ++ δs.flatten) ∧
    binOpLine "+" = some "add" ∧ binOpLine "-" = some "sub" ∧
    binOpLine "&" = some "and" ∧ binOpLine "|" = some "or" ∧
    binOpLine "=" = some "eq" ∧ binOpLine ">" = some "gt" ∧
    binOpLine "<" = some "lt" ∧ binOpLine "*" = some "call Math.multiply 2" ∧
    binOpLine "/" = some "call Math.divide 2") := by
  have h := expression_left_to_right_spec (.intConst ⟨.TokenIntegerConst, "1", 1, 1⟩)
    [⟨.TokenSymbol, "+", 1, 1⟩, ⟨.TokenSymbol, "*", 1, 1⟩]
    [.intConst ⟨.TokenIntegerConst, "2", 1, 1⟩, .intConst ⟨.TokenIntegerConst, "3", 1, 1⟩]
    NewCompiler
    (NewCompiler.withOut
      ["push constant 1", "push constant 2", "add", "push constant 3", "call Math.multiply 2"])
    (by rfl)
  exact ⟨h.1, h.2.1.imp (fun δ0 h0 => h0.imp (fun δs h1 => ⟨h1.1, h1.2.1, h1.2.2.1,
    h1.2.2.2, h.2.2⟩))⟩

/-- C2: confirmed.  Compiling an array-target let statement emits exactly:
the push of the target variable's segment and offset, the code of the
index expression, add, the code of the value expression, pop temp 0,
pop pointer 1, push temp 0, pop that 0.  The value expression is compiled
after the target address is on the stack and its result is buffered
through temp 0. -/
theorem let_array_spec (varName : Token) (aexp vexp : ExpressionNode) (c c' : Compiler)
    (h : compileLetStatement varName (some aexp) vexp c = .ok c') :
    ∃ vi δI δE,
      stlGetVarInfo c.tbl varName.value = .ok vi ∧
      compileExpressionNode aexp (c.withOut []) = .ok (c.withOut δI) ∧
      compileExpressionNode vexp (c.withOut []) = .ok (c.withOut δE) ∧
      c'.out = c.out ++
        ["push " ++ (GetSegment vi.kind).str ++ " " ++ itoa vi.offset] ++ δI ++ ["add"] ++
        δE ++ ["pop temp 0", "pop pointer 1", "push temp 0", "pop that 0"] := by
  simp only [compileLetStatement] at h
  cases hg : stlGetVarInfo c.tbl varName.value with
  | error e => rw [hg] at h; cases h
  | ok vi =>
    rw [hg] at h
    dsimp only at h
    cases hi : compileExpressionNode aexp (c.push (GetSegment vi.kind) (itoa vi.offset)) with
    | error e => rw [hi] at h; cases h
    | ok c1 =>
      rw [hi] at h
      dsimp only at h
      obtain ⟨δI, hc1, htrI⟩ := frameExpr aexp _ c1 hi
      subst hc1
      cases hb : ((c.push (GetSegment vi.kind) (itoa vi.offset)).withOut
          ((c.push (GetSegment vi.kind) (itoa vi.offset)).out ++ δI)).binaryOp "+" with
      | error e => rw [hb] at h; cases h
      | ok c2 =>
        rw [hb] at h
        dsimp only at h
        obtain ⟨l, hl, hc2⟩ := binaryOp_ok_elim _ _ _ hb
        have hladd : l = "add" := by
          have : binOpLine "+" = some "add" := rfl
          rw [this] at hl
          exact (Option.some.inj hl).symm
        subst hladd
        subst hc2
        cases hv : compileExpressionNode vexp (((c.push (GetSegment vi.kind)
            (itoa vi.offset)).withOut ((c.push (GetSegment vi.kind) (itoa vi.offset)).out ++
              δI)).withOut (((c.push (GetSegment vi.kind) (itoa vi.offset)).withOut
              ((c.push (GetSegment vi.kind) (itoa vi.offset)).out ++ δI)).out ++ ["add"])) with
        | error e => rw [hv] at h; cases h
        | ok c3 =>
          rw [hv] at h
          dsimp only at h
          obtain ⟨δE, hc3, htrE⟩ := frameExpr vexp _ c3 hv
          subst hc3
          cases h
          refine ⟨vi, δI, δE, rfl, ?_, ?_, ?_⟩
          · have := htrI []
            simpa using this
          · have := htrE []
            simpa using this
          · simp [Compiler.push, Compiler.pop, Compiler.withOut, MemSegment.str,
              List.append_assoc]

/-- Witness for let_array_spec: the spec scenario with locals a, i, j at
local 0, 1, 2 produces exactly the eight-line sequence. -/
theorem let_array_spec_witness :
    ∃ vi δI δE,
      stlGetVarInfo
        [⟨"M.f", [("a", ⟨.Local, "Array", 0⟩), ("i", ⟨.Local, "int", 1⟩),
                  ("j", ⟨.Local, "int", 2⟩)], ⟨0, 0, 0, 3⟩⟩] "a" = .ok vi ∧
      compileExpressionNode (.mk (.varTerm ⟨.TokenIdentifier, "i", 1, 1⟩) [] [])
          ((⟨[], 0, 0, [⟨"M.f", [("a", ⟨.Local, "Array", 0⟩), ("i", ⟨.Local, "int", 1⟩),
              ("j", ⟨.Local, "int", 2⟩)], ⟨0, 0, 0, 3⟩⟩]⟩ : Compiler).withOut []) =
        .ok ((⟨[], 0, 0, [⟨"M.f", [("a", ⟨.Local, "Array", 0⟩), ("i", ⟨.Local, "int", 1⟩),
              ("j", ⟨.Local, "int", 2⟩)], ⟨0, 0, 0, 3⟩⟩]⟩ : Compiler).withOut δI) ∧
      compileExpressionNode (.mk (.varTerm ⟨.TokenIdentifier, "j", 1, 1⟩) [] [])
          ((⟨[], 0, 0, [⟨"M.f", [("a", ⟨.Local, "Array", 0⟩), ("i", ⟨.Local, "int", 1⟩),
              ("j", ⟨.Local, "int", 2⟩)], ⟨0, 0, 0, 3⟩⟩]⟩ : Compiler).withOut []) =
        .ok ((⟨[], 0, 0, [⟨"M.f", [("a", ⟨.Local, "Array", 0⟩), ("i", ⟨.Local, "int", 1⟩),
              ("j", ⟨.Local, "int", 2⟩)], ⟨0, 0, 0, 3⟩⟩]⟩ : Compiler).withOut δE) ∧
      (["push local 0", "push local 1", "add", "push local 2",
        "pop temp 0", "pop pointer 1", "push temp 0", "pop that 0"] : List String) =
        [] ++ ["push " ++ (GetSegment vi.kind).str ++ " " ++ itoa vi.offset] ++ δI ++ ["add"] ++
        δE ++ ["pop temp 0", "pop pointer 1", "push temp 0", "pop that 0"] := by
  have h := let_array_spec ⟨.TokenIdentifier, "a", 1, 1⟩
    (.mk (.varTerm ⟨.TokenIdentifier, "i", 1, 1⟩) [] [])
    (.mk (.varTerm ⟨.TokenIdentifier, "j", 1, 1⟩) [] [])
    (⟨[], 0, 0, [⟨"M.f", [("a", ⟨.Local, "Array", 0⟩), ("i", ⟨.Local, "int", 1⟩),
        ("j", ⟨.Local, "int", 2⟩)], ⟨0, 0, 0, 3⟩⟩]⟩ : Compiler)
    (⟨["push local 0", "push local 1", "add", "push local 2",
       "pop temp 0", "pop pointer 1", "push temp 0", "pop that 0"], 0, 0,
      [⟨"M.f", [("a", ⟨.Local, "Array", 0⟩), ("i", ⟨.Local, "int", 1⟩),
        ("j", ⟨.Local, "int", 2⟩)], ⟨0, 0, 0, 3⟩⟩]⟩ : Compiler)
    (by rfl)
  exact h

/-! ## Label counters (C5) -/

lemma openIf_ok_elim (c : Compiler) (ls : String × String) (c1 : Compiler)
    (h : c.openIf = .ok (ls, c1)) :
    c1 = { c with ifCount := c.ifCount + 1 } ∧
    ∃ fn, stlName c.tbl = .ok fn ∧
      ls = (fn ++ "$ELSE_" ++ itoa c.ifCount, fn ++ "$IF_END_" ++ itoa c.ifCount) := by
  unfold Compiler.openIf at h
  cases hn : stlName c.tbl with
  | error e => rw [hn] at h; cases h
  | ok fn =>
    rw [hn] at h
    obtain ⟨h1, h2⟩ := Prod.mk.injEq .. ▸ (Except.ok.inj h)
    exact ⟨h2.symm, fn, rfl, h1.symm⟩

lemma openWhile_ok_elim (c : Compiler) (ls : String × String) (c1 : Compiler)
    (h : c.openWhile = .ok (ls, c1)) :
    c1 = { c with whileCount := c.whileCount + 1 } ∧
    ∃ fn, stlName c.tbl = .ok fn ∧
      ls = (fn ++ "$WHILE_BEGIN_" ++ itoa c.whileCount,
            fn ++ "$WHILE_END_" ++ itoa c.whileCount) := by
  unfold Compiler.openWhile at h
  cases hn : stlName c.tbl with
  | error e => rw [hn] at h; cases h
  | ok fn =>
    rw [hn] at h
    obtain ⟨h1, h2⟩ := Prod.mk.injEq .. ▸ (Except.ok.inj h)
    exact ⟨h2.symm, fn, rfl, h1.symm⟩

lemma compileLetStatement_counters (varName : Token) (arrayExp : Option ExpressionNode)
    (valueExp : ExpressionNode) (c c' : Compiler)
    (h : compileLetStatement varName arrayExp valueExp c = .ok c') :
    c'.ifCount = c.ifCount ∧ c'.whileCount = c.whileCount := by
  simp only [compileLetStatement] at h
  cases hg : stlGetVarInfo c.tbl varName.value with
  | error e => rw [hg] at h; cases h
  | ok vi =>
    rw [hg] at h
    dsimp only at h
    cases arrayExp with
    | none =>
      dsimp only at h
      cases hv : compileExpressionNode valueExp c with
      | error e => rw [hv] at h; cases h
      | ok c1 =>
        rw [hv] at h
        obtain ⟨δ, hc1, -⟩ := frameExpr valueExp c c1 hv
        subst hc1
        cases h
        exact ⟨rfl, rfl⟩
    | some arrExp =>
      dsimp only at h
      cases hi : compileExpressionNode arrExp (c.push (GetSegment vi.kind) (itoa vi.offset)) with
      | error e => rw [hi] at h; cases h
      | ok c1 =>
        rw [hi] at h
        dsimp only at h
        obtain ⟨δI, hc1, -⟩ := frameExpr arrExp _ c1 hi
        subst hc1
        cases hb : ((c.push (GetSegment vi.kind) (itoa vi.offset)).withOut
            ((c.push (GetSegment vi.kind) (itoa vi.offset)).out ++ δI)).binaryOp "+" with
        | error e => rw [hb] at h; cases h
        | ok c2 =>
          rw [hb] at h
          dsimp only at h
          obtain ⟨l, -, hc2⟩ := binaryOp_ok_elim _ _ _ hb
          subst hc2
          cases hv : compileExpressionNode valueExp _ with
          | error e => rw [hv] at h; cases h
          | ok c3 =>
            rw [hv] at h
            dsimp only at h
            obtain ⟨δE, hc3, -⟩ := frameExpr valueExp _ c3 hv
            subst hc3
            cases h
            exact ⟨rfl, rfl⟩

lemma compileDoStatement_counters (call : SubroutineCallNode) (c c' : Compiler)
    (h : compileDoStatement call c = .ok c') :
    c'.ifCount = c.ifCount ∧ c'.whileCount = c.whileCount := by
  simp only [compileDoStatement] at h
  cases hc : compileSubroutineCall call c with
  | error e => rw [hc] at h; cases h
  | ok c1 =>
    rw [hc] at h
    obtain ⟨δ, hc1, -⟩ := frameCall call c c1 hc
    subst hc1
    cases h
    exact ⟨rfl, rfl⟩

lemma compileReturnStatement_counters (expr : Option ExpressionNode) (c c' : Compiler)
    (h : compileReturnStatement expr c = .ok c') :
    c'.ifCount = c.ifCount ∧ c'.whileCount = c.whileCount := by
  simp only [compileReturnStatement] at h
  cases expr with
  | none => cases h; exact ⟨rfl, rfl⟩
  | some e =>
    dsimp only at h
    cases hc : compileExpressionNode e c with
    | error err => rw [hc] at h; cases h
    | ok c1 =>
      rw [hc] at h
      obtain ⟨δ, hc1, -⟩ := frameExpr e c c1 hc
      subst hc1
      cases h
      exact ⟨rfl, rfl⟩

lemma countersMonoAux : ∀ (n : Nat),
    (∀ (st : StatementNode) (c c' : Compiler), sizeOf st ≤ n →
      compileStatementNode st c = .ok c' →
      c.ifCount ≤ c'.ifCount ∧ c.whileCount ≤ c'.whileCount) ∧
    (∀ (l : List StatementNode) (c c' : Compiler), sizeOf l ≤ n →
      compileStList l c = .ok c' →
      c.ifCount ≤ c'.ifCount ∧ c.whileCount ≤ c'.whileCount) := by
  intro n
  induction n using Nat.strong_induction_on with
  | _ n ih =>
    constructor
    · intro st c c' hs h
      cases st with
      | letStmt varName arrayExp valueExp =>
        obtain ⟨h1, h2⟩ := compileLetStatement_counters varName arrayExp valueExp c c' h
        omega
      | doStmt call =>
        obtain ⟨h1, h2⟩ := compileDoStatement_counters call c c' h
        omega
      | returnStmt expr =>
        obtain ⟨h1, h2⟩ := compileReturnStatement_counters expr c c' h
        omega
      | ifStmt ifExpr ifStat elseStat =>
        obtain ⟨ifL⟩ := ifStat
        rw [compileStatementNode.eq_def] at h
        dsimp only at h
        cases ho : c.openIf with
        | error e => rw [ho] at h; cases h
        | ok r =>
          obtain ⟨ls, c1⟩ := r
          rw [ho] at h
          dsimp only at h
          obtain ⟨hc1, -⟩ := openIf_ok_elim c ls c1 ho
          subst hc1
          cases hcond : compileExpressionNode ifExpr { c with ifCount := c.ifCount + 1 } with
          | error e => rw [hcond] at h; cases h
          | ok c2 =>
            rw [hcond] at h
            dsimp only at h
            obtain ⟨δ, hc2, -⟩ := frameExpr ifExpr _ c2 hcond
            subst hc2
            cases hu : ({ c with ifCount := c.ifCount + 1 } : Compiler).withOut _ |>.unaryOp "~" with
            | error e => rw [hu] at h; cases h
            | ok c3 =>
              rw [hu] at h
              dsimp only at h
              obtain ⟨cmd, -, hc3⟩ := unaryOp_ok_elim _ _ _ hu
              subst hc3
              cases elseStat with
              | some es =>
                obtain ⟨esL⟩ := es
                dsimp only at h
                rw [compileStatementsNode_mk] at h
                cases hs1 : compileStList ifL _ with
                | error e => rw [hs1] at h; cases h
                | ok c4 =>
                  rw [hs1] at h
                  dsimp only at h
                  rw [compileStatementsNode_mk] at h
                  cases hs2 : compileStList esL _ with
                  | error e => rw [hs2] at h; cases h
                  | ok c5 =>
                    rw [hs2] at h
                    dsimp only at h
                    have hszIf : sizeOf ifL < n + 1 := by
                      have h0 : sizeOf ifL <
                          sizeOf (StatementNode.ifStmt ifExpr (.mk ifL) (some (.mk esL))) := by
                        simp
                        omega
                      omega
                    have hszEs : sizeOf esL < n + 1 := by
                      have h0 : sizeOf esL <
                          sizeOf (StatementNode.ifStmt ifExpr (.mk ifL) (some (.mk esL))) := by
                        simp
                        omega
                      omega
                    have hn1 : sizeOf ifL < n := by
                      have h0 : sizeOf ifL <
                          sizeOf (StatementNode.ifStmt ifExpr (.mk ifL) (some (.mk esL))) := by
                        simp
                        omega
                      omega
                    have hn2 : sizeOf esL < n := by
                      have h0 : sizeOf esL <
                          sizeOf (StatementNode.ifStmt ifExpr (.mk ifL) (some (.mk esL))) := by
                        simp
                        omega
                      omega
                    have m1 := (ih (sizeOf ifL) hn1).2 ifL _ c4 (Nat.le_refl _) hs1
                    have m2 := (ih (sizeOf esL) hn2).2 esL _ c5 (Nat.le_refl _) hs2
                    cases h
                    simp only [Compiler.gotoIns, Compiler.labelIns, Compiler.ifGotoIns,
                      Compiler.withOut] at m1 m2 ⊢
                    omega
              | none =>
                dsimp only at h
                rw [compileStatementsNode_mk] at h
                cases hs1 : compileStList ifL _ with
                | error e => rw [hs1] at h; cases h
                | ok c4 =>
                  rw [hs1] at h
                  dsimp only at h
                  have hn1 : sizeOf ifL < n := by
                    have h0 : sizeOf ifL <
                        sizeOf (StatementNode.ifStmt ifExpr (.mk ifL) none) := by
                      simp
                      all_goals omega
                    omega
                  have m1 := (ih (sizeOf ifL) hn1).2 ifL _ c4 (Nat.le_refl _) hs1
                  cases h
                  simp only [Compiler.labelIns, Compiler.ifGotoIns, Compiler.withOut] at m1 ⊢
                  omega
      | whileStmt expr stat =>
        obtain ⟨stL⟩ := stat
        rw [compileStatementNode.eq_def] at h
        dsimp only at h
        cases ho : c.openWhile with
        | error e => rw [ho] at h; cases h
        | ok r =>
          obtain ⟨ls, c1⟩ := r
          rw [ho] at h
          dsimp only at h
          obtain ⟨hc1, -⟩ := openWhile_ok_elim c ls c1 ho
          subst hc1
          cases hcond : compileExpressionNode expr
              (({ c with whileCount := c.whileCount + 1 } : Compiler).labelIns ls.1) with
          | error e => rw [hcond] at h; cases h
          | ok c2 =>
            rw [hcond] at h
            dsimp only at h
            obtain ⟨δ, hc2, -⟩ := frameExpr expr _ c2 hcond
            subst hc2
            cases hu : Compiler.unaryOp _ "~" with
            | error e => rw [hu] at h; cases h
            | ok c3 =>
              rw [hu] at h
              dsimp only at h
              obtain ⟨cmd, -, hc3⟩ := unaryOp_ok_elim _ _ _ hu
              subst hc3
              rw [compileStatementsNode_mk] at h
              cases hs1 : compileStList stL _ with
              | error e => rw [hs1] at h; cases h
              | ok c4 =>
                rw [hs1] at h
                dsimp only at h
                have hn1 : sizeOf stL < n := by
                  have h0 : sizeOf stL < sizeOf (StatementNode.whileStmt expr (.mk stL)) := by
                    simp
                    all_goals omega
                  omega
                have m1 := (ih (sizeOf stL) hn1).2 stL _ c4 (Nat.le_refl _) hs1
                cases h
                simp only [Compiler.gotoIns, Compiler.labelIns, Compiler.ifGotoIns,
                  Compiler.withOut] at m1 ⊢
                omega
    · intro l c c' hs h
      cases l with
      | nil =>
        rw [compileStList_nil] at h
        cases h
        exact ⟨Nat.le_refl _, Nat.le_refl _⟩
      | cons st rest =>
        rw [compileStList_cons] at h
        cases h1 : compileStatementNode st c with
        | error e => rw [h1] at h; cases h
        | ok c1 =>
          rw [h1] at h
          dsimp only at h
          have hn1 : sizeOf st < n := by
            have h0 : sizeOf st < sizeOf (st :: rest) := by
              simp
              all_goals omega
            omega
          have hn2 : sizeOf rest < n := by
            have h0 : sizeOf rest < sizeOf (st :: rest) := by
              simp
              all_goals omega
            omega
          have m1 := (ih (sizeOf st) hn1).1 st c c1 (Nat.le_refl _) h1
          have m2 := (ih (sizeOf rest) hn2).2 rest c1 c' (Nat.le_refl _) h
          omega

/-- Counter monotonicity for a single statement: compiling any statement
never decreases whileCount or ifCount. -/
lemma stmtMono (st : StatementNode) (c c' : Compiler)
    (h : compileStatementNode st c = .ok c') :
    c.ifCount ≤ c'.ifCount ∧ c.whileCount ≤ c'.whileCount :=
  (countersMonoAux (sizeOf st)).1 st c c' (Nat.le_refl _) h

lemma stListMono (l : List StatementNode) (c c' : Compiler)
    (h : compileStList l c = .ok c') :
    c.ifCount ≤ c'.ifCount ∧ c.whileCount ≤ c'.whileCount :=
  (countersMonoAux (sizeOf l)).2 l c c' (Nat.le_refl _) h

lemma stmtsMono (s : StatementsNode) (c c' : Compiler)
    (h : compileStatementsNode s c = .ok c') :
    c.ifCount ≤ c'.ifCount ∧ c.whileCount ≤ c'.whileCount := by
  obtain ⟨l⟩ := s
  rw [compileStatementsNode_mk] at h
  exact stListMono l c c' h

lemma foldlM_preserves {α : Type} (f : Compiler → α → Except String Compiler)
    (hf : ∀ c x c', f c x = .ok c' →
      c'.ifCount = c.ifCount ∧ c'.whileCount = c.whileCount) :
    ∀ (l : List α) (c c'), l.foldlM f c = .ok c' →
      c'.ifCount = c.ifCount ∧ c'.whileCount = c.whileCount := by
  intro l
  induction l with
  | nil =>
    intro c c' h
    simp only [List.foldlM_nil] at h
    cases h
    exact ⟨rfl, rfl⟩
  | cons x xs ih =>
    intro c c' h
    simp only [List.foldlM_cons] at h
    cases hx : f c x with
    | error e => rw [hx] at h; cases h
    | ok c1 =>
      rw [hx] at h
      replace h : xs.foldlM f c1 = .ok c' := h
      obtain ⟨e1, e2⟩ := hf c x c1 hx
      obtain ⟨e3, e4⟩ := ih c1 c' h
      omega

lemma compileVarDecNode_counters (vdn : VarDecNode) (c c' : Compiler)
    (h : compileVarDecNode vdn c = .ok c') :
    c'.ifCount = c.ifCount ∧ c'.whileCount = c.whileCount := by
  unfold compileVarDecNode at h
  refine foldlM_preserves _ ?_ vdn.ids c c' h
  intro c x c' hf
  cases ha : stlAddVar c.tbl .Local vdn.varType.value x.value with
  | error e => rw [ha] at hf; cases hf
  | ok tbl => rw [ha] at hf; cases hf; exact ⟨rfl, rfl⟩

lemma compileClassVarDec_counters (cvd : ClassVarDecNode) (c c' : Compiler)
    (h : compileClassVarDec cvd c = .ok c') :
    c'.ifCount = c.ifCount ∧ c'.whileCount = c.whileCount := by
  unfold compileClassVarDec at h
  refine foldlM_preserves _ ?_ cvd.names c c' h
  intro c x c' hf
  cases ha : stlAddVar c.tbl (if cvd.kind.value = "field" then .Field else .Static)
      cvd.varType.value x.value with
  | error e => rw [ha] at hf; cases hf
  | ok tbl => rw [ha] at hf; cases hf; exact ⟨rfl, rfl⟩

lemma compileParams_counters : ∀ (vts vns : List Token) (c c' : Compiler),
    compileParams vts vns c = .ok c' →
    c'.ifCount = c.ifCount ∧ c'.whileCount = c.whileCount := by
  intro vts
  induction vts with
  | nil =>
    intro vns c c' h
    simp only [compileParams] at h
    cases h
    exact ⟨rfl, rfl⟩
  | cons vt vts' ih =>
    intro vns c c' h
    cases vns with
    | nil => simp only [compileParams] at h; cases h
    | cons vn vns' =>
      simp only [compileParams] at h
      cases ha : stlAddVar c.tbl .Arg vt.value vn.value with
      | error e => rw [ha] at h; cases h
      | ok tbl =>
        rw [ha] at h
        dsimp only at h
        obtain ⟨e1, e2⟩ := ih vns' _ c' h
        exact ⟨e1, e2⟩

lemma compileSubroutineBody_mono (sbn : SubroutineBodyNode) (c c' : Compiler)
    (h : compileSubroutineBody sbn c = .ok c') :
    c.ifCount ≤ c'.ifCount ∧ c.whileCount ≤ c'.whileCount := by
  unfold compileSubroutineBody at h
  cases hv : sbn.varDec.foldlM (fun c vd => compileVarDecNode vd c) c with
  | error e => rw [hv] at h; cases h
  | ok c1 =>
    rw [hv] at h
    obtain ⟨e1, e2⟩ := foldlM_preserves _
      (fun c vd c' hf => compileVarDecNode_counters vd c c' hf) sbn.varDec c c1 hv
    obtain ⟨m1, m2⟩ := stmtsMono sbn.statm c1 c' h
    omega

/-- Counter monotonicity through a whole SubroutineDec: the counters are
never reset there, they can only grow with the ifs and whiles of the
body. -/
lemma compileSubroutineDec_mono (sdn : SubroutineDecNode) (c c' : Compiler)
    (h : compileSubroutineDec sdn c = .ok c') :
    c.ifCount ≤ c'.ifCount ∧ c.whileCount ≤ c'.whileCount := by
  unfold compileSubroutineDec at h
  cases h1 : stlCount c.tbl .Field with
  | error e => rw [h1] at h; cases h
  | ok fieldsCount =>
    rw [h1] at h
    dsimp only at h
    cases h2 : stlName c.tbl with
    | error e => rw [h2] at h; cases h
    | ok className =>
      rw [h2] at h
      dsimp only at h
      cases h3 : (if sdn.sbrKind.value = "method" then _ else _ : Except String Compiler) with
      | error e => rw [h3] at h; cases h
      | ok c1 =>
        rw [h3] at h
        dsimp only at h
        have hc1 : c1.ifCount = c.ifCount ∧ c1.whileCount = c.whileCount := by
          by_cases hm : sdn.sbrKind.value = "method"
          · rw [if_pos hm] at h3
            cases ha : stlAddVar (if sdn.sbrKind.value = "constructor"
                then _ else _ : Compiler).tbl .Arg className "this" with
            | error e =>
              rw [ha] at h3; cases h3
            | ok tbl =>
              rw [ha] at h3
              cases h3
              by_cases hk : sdn.sbrKind.value = "constructor" <;>
                simp [hk, Compiler.push, Compiler.pop, Compiler.callIns,
                  Compiler.functionIns] <;> rfl
          · rw [if_neg hm] at h3
            cases h3
            by_cases hk : sdn.sbrKind.value = "constructor" <;>
              simp [hk, Compiler.push, Compiler.pop, Compiler.callIns, Compiler.functionIns]
        cases h4 : compileParameterList sdn.paramList c1 with
        | error e => rw [h4] at h; cases h
        | ok c2 =>
          rw [h4] at h
          dsimp only at h
          obtain ⟨e1, e2⟩ := compileParams_counters sdn.paramList.varTypes
            sdn.paramList.varNames c1 c2 h4
          cases h5 : compileSubroutineBody sdn.body c2 with
          | error e => rw [h5] at h; cases h
          | ok c3 =>
            rw [h5] at h
            cases h
            obtain ⟨m1, m2⟩ := compileSubroutineBody_mono sdn.body c2 c3 h5
            obtain ⟨g1, g2⟩ := hc1
            simp only
            omega

lemma stlName_append (ts : List SymbolTable) (t : SymbolTable) :
    stlName (ts ++ [t]) = .ok t.name := by
  unfold stlName
  rw [List.getLast?_concat]

lemma label_ne (p : String) {i j : Nat} (h : i ≠ j) : p ++ itoa i ≠ p ++ itoa j :=
  fun hc => h (itoa_injective (string_append_left_cancel hc))

/-- C5, amended: the label counters whileCount and ifCount are fields of
the Compiler, initialised to zero once per compiler and never reset: a
SubroutineDec compile (like every statement compile) can only leave them
equal or larger.  OpenIf and OpenWhile prefix both labels with the current
innermost table name, embed the current counter value and increment it by
one, and two allocations with the same prefix but different counter values
always produce distinct label strings, so any two if (or while) statements
compiled inside the same subroutine receive distinct labels. -/
theorem label_counters_spec :
    (∀ (c : Compiler) (ts : List SymbolTable) (t : SymbolTable), c.tbl = ts ++ [t] →
      c.openIf = .ok ((t.name ++ "$ELSE_" ++ itoa c.ifCount,
                       t.name ++ "$IF_END_" ++ itoa c.ifCount),
                      { c with ifCount := c.ifCount + 1 }) ∧
      c.openWhile = .ok ((t.name ++ "$WHILE_BEGIN_" ++ itoa c.whileCount,
                          t.name ++ "$WHILE_END_" ++ itoa c.whileCount),
                         { c with whileCount := c.whileCount + 1 })) ∧
    (∀ (st : StatementNode) (c c' : Compiler), compileStatementNode st c = .ok c' →
      c.ifCount ≤ c'.ifCount ∧ c.whileCount ≤ c'.whileCount) ∧
    (∀ (sdn : SubroutineDecNode) (c c' : Compiler), compileSubroutineDec sdn c = .ok c' →
      c.ifCount ≤ c'.ifCount ∧ c.whileCount ≤ c'.whileCount) ∧
    (∀ (fn : String) (i j : Nat), i ≠ j →
      fn ++ "$ELSE_" ++ itoa i ≠ fn ++ "$ELSE_" ++ itoa j ∧
      fn ++ "$IF_END_" ++ itoa i ≠ fn ++ "$IF_END_" ++ itoa j ∧
      fn ++ "$WHILE_BEGIN_" ++ itoa i ≠ fn ++ "$WHILE_BEGIN_" ++ itoa j ∧
      fn ++ "$WHILE_END_" ++ itoa i ≠ fn ++ "$WHILE_END_" ++ itoa j) := by
  refine ⟨?_, stmtMono, compileSubroutineDec_mono, ?_⟩
  · intro c ts t hc
    constructor
    · unfold Compiler.openIf
      rw [hc, stlName_append]
    · unfold Compiler.openWhile
      rw [hc, stlName_append]
  · intro fn i j hij
    exact ⟨label_ne (fn ++ "$ELSE_") hij, label_ne (fn ++ "$IF_END_") hij,
      label_ne (fn ++ "$WHILE_BEGIN_") hij, label_ne (fn ++ "$WHILE_END_") hij⟩

/-- Witness for label_counters_spec: concrete instances of the four parts
at a two-table stack, a concrete while statement, a concrete subroutine
and the counter values 0 and 1. -/
theorem label_counters_spec_witness :
    (Compiler.openIf ⟨[], 0, 0, [NewSymbolTable "C", NewSymbolTable "C.f"]⟩ =
      .ok (("C.f$ELSE_0", "C.f$IF_END_0"),
           ⟨[], 0, 1, [NewSymbolTable "C", NewSymbolTable "C.f"]⟩)) ∧
    ((0 : Nat) ≤ 0 ∧ (0 : Nat) ≤ 1) ∧
    ((0 : Nat) ≤ 0 ∧ (0 : Nat) ≤ 1) ∧
    ("C.f$WHILE_BEGIN_0" ≠ "C.f$WHILE_BEGIN_1") := by
  refine ⟨?_, ?_, ?_, ?_⟩
  · exact ((label_counters_spec.1
      ⟨[], 0, 0, [NewSymbolTable "C", NewSymbolTable "C.f"]⟩
      [NewSymbolTable "C"] (NewSymbolTable "C.f") rfl).1)
  · exact label_counters_spec.2.1
      (.whileStmt (.mk (.keyWordConst ⟨.TokenKeyword, "true", 1, 1⟩) [] []) (.mk []))
      ⟨[], 0, 0, [NewSymbolTable "C.f"]⟩
      ⟨["label C.f$WHILE_BEGIN_0", "push constant 0", "not", "not",
        "if-goto C.f$WHILE_END_0", "goto C.f$WHILE_BEGIN_0", "label C.f$WHILE_END_0"],
       1, 0, [NewSymbolTable "C.f"]⟩ rfl
  · exact label_counters_spec.2.2.1
      ⟨⟨.TokenKeyword, "function", 1, 1⟩, ⟨.TokenKeyword, "void", 1, 1⟩,
       ⟨.TokenIdentifier, "f", 1, 1⟩, ⟨[], []⟩,
       ⟨[], .mk [.whileStmt (.mk (.keyWordConst ⟨.TokenKeyword, "true", 1, 1⟩) [] [])
         (.mk [])]⟩⟩
      ⟨[], 0, 0, [NewSymbolTable "C"]⟩
      ⟨["function C.f 0", "label C.f$WHILE_BEGIN_0", "push constant 0", "not", "not",
        "if-goto C.f$WHILE_END_0", "goto C.f$WHILE_BEGIN_0", "label C.f$WHILE_END_0"],
       1, 0, [NewSymbolTable "C"]⟩ rfl
  · exact (label_counters_spec.2.2.2 "C.f" 0 1 (by decide)).2.2.1

instance : DecidableEq (Except String Compiler) := fun
  | .error a, .error b =>
    if h : a = b then .isTrue (by rw [h]) else .isFalse (by intro hc; cases hc; exact h rfl)
  | .error _, .ok _ => .isFalse (by intro hc; cases hc)
  | .ok _, .error _ => .isFalse (by intro hc; cases hc)
  | .ok a, .ok b =>
    if h : a = b then .isTrue (by rw [h]) else .isFalse (by intro hc; cases hc; exact h rfl)

/-- C5 counterexample: compiling a class with two subroutines, each
containing one while statement, shows that whileCount is NOT reset at the
second SubroutineDec: the second subroutine's while labels carry counter
value 1 (label C.g$WHILE_BEGIN_1), not the counter value 0 that a
per-subroutine reset would produce (no C.g$WHILE_BEGIN_0 is emitted). -/
theorem label_counters_reset_cex :
    compileClassNode
      ⟨⟨.TokenIdentifier, "C", 1, 1⟩, [],
       [⟨⟨.TokenKeyword, "function", 1, 1⟩, ⟨.TokenKeyword, "void", 1, 1⟩,
         ⟨.TokenIdentifier, "f", 1, 1⟩, ⟨[], []⟩,
         ⟨[], .mk [.whileStmt (.mk (.keyWordConst ⟨.TokenKeyword, "true", 1, 1⟩) [] [])
           (.mk [])]⟩⟩,
        ⟨⟨.TokenKeyword, "function", 1, 1⟩, ⟨.TokenKeyword, "void", 1, 1⟩,
         ⟨.TokenIdentifier, "g", 1, 1⟩, ⟨[], []⟩,
         ⟨[], .mk [.whileStmt (.mk (.keyWordConst ⟨.TokenKeyword, "true", 1, 1⟩) [] [])
           (.mk [])]⟩⟩]⟩
      NewCompiler =
      .ok ⟨["function C.f 0", "label C.f$WHILE_BEGIN_0", "push constant 0", "not", "not",
            "if-goto C.f$WHILE_END_0", "goto C.f$WHILE_BEGIN_0", "label C.f$WHILE_END_0",
            "function C.g 0", "label C.g$WHILE_BEGIN_1", "push constant 0", "not", "not",
            "if-goto C.g$WHILE_END_1", "goto C.g$WHILE_BEGIN_1", "label C.g$WHILE_END_1"],
           2, 0, []⟩ ∧
    "label C.g$WHILE_BEGIN_1" ∈
      ["function C.f 0", "label C.f$WHILE_BEGIN_0", "push constant 0", "not", "not",
       "if-goto C.f$WHILE_END_0", "goto C.f$WHILE_BEGIN_0", "label C.f$WHILE_END_0",
       "function C.g 0", "label C.g$WHILE_BEGIN_1", "push constant 0", "not", "not",
       "if-goto C.g$WHILE_END_1", "goto C.g$WHILE_BEGIN_1", "label C.g$WHILE_END_1"] ∧
    "label C.g$WHILE_BEGIN_0" ∉
      ["function C.f 0", "label C.f$WHILE_BEGIN_0", "push constant 0", "not", "not",
       "if-goto C.f$WHILE_END_0", "goto C.f$WHILE_BEGIN_0", "label C.f$WHILE_END_0",
       "function C.g 0", "label C.g$WHILE_BEGIN_1", "push constant 0", "not", "not",
       "if-goto C.g$WHILE_END_1", "goto C.g$WHILE_BEGIN_1", "label C.g$WHILE_END_1"] := by
  have s1 : compileSubroutineDec
      ⟨⟨.TokenKeyword, "function", 1, 1⟩, ⟨.TokenKeyword, "void", 1, 1⟩,
       ⟨.TokenIdentifier, "f", 1, 1⟩, ⟨[], []⟩,
       ⟨[], .mk [.whileStmt (.mk (.keyWordConst ⟨.TokenKeyword, "true", 1, 1⟩) [] [])
         (.mk [])]⟩⟩
      (⟨[], 0, 0, [NewSymbolTable "C"]⟩ : Compiler) =
      .ok ⟨["function C.f 0", "label C.f$WHILE_BEGIN_0", "push constant 0", "not", "not",
            "if-goto C.f$WHILE_END_0", "goto C.f$WHILE_BEGIN_0", "label C.f$WHILE_END_0"],
           1, 0, [NewSymbolTable "C"]⟩ := rfl
  have s2 : compileSubroutineDec
      ⟨⟨.TokenKeyword, "function", 1, 1⟩, ⟨.TokenKeyword, "void", 1, 1⟩,
       ⟨.TokenIdentifier, "g", 1, 1⟩, ⟨[], []⟩,
       ⟨[], .mk [.whileStmt (.mk (.keyWordConst ⟨.TokenKeyword, "true", 1, 1⟩) [] [])
         (.mk [])]⟩⟩
      (⟨["function C.f 0", "label C.f$WHILE_BEGIN_0", "push constant 0", "not", "not",
         "if-goto C.f$WHILE_END_0", "goto C.f$WHILE_BEGIN_0", "label C.f$WHILE_END_0"],
        1, 0, [NewSymbolTable "C"]⟩ : Compiler) =
      .ok ⟨["function C.f 0", "label C.f$WHILE_BEGIN_0", "push constant 0", "not", "not",
            "if-goto C.f$WHILE_END_0", "goto C.f$WHILE_BEGIN_0", "label C.f$WHILE_END_0",
            "function C.g 0", "label C.g$WHILE_BEGIN_1", "push constant 0", "not", "not",
            "if-goto C.g$WHILE_END_1", "goto C.g$WHILE_BEGIN_1", "label C.g$WHILE_END_1"],
           2, 0, [NewSymbolTable "C"]⟩ := rfl
  refine ⟨?_, by decide, by decide⟩
  unfold compileClassNode
  simp only [List.foldlM_nil, List.foldlM_cons]
  rw [show ({ NewCompiler with
        tbl := NewCompiler.tbl.createTable "C" } : Compiler) =
      (⟨[], 0, 0, [NewSymbolTable "C"]⟩ : Compiler) from rfl]
  dsimp only [pure, Except.pure]
  rw [s1]
  dsimp only [bind, Except.bind]
  rw [s2]
  dsimp only [bind, Except.bind]
  rfl

/-! ## Lexer (token.go, canonical snapshot)

The bufio.Reader is modelled as the list of remaining input bytes
(characters; the input is ASCII-compatible per spec 6).  The Tokenizer
carries it together with the line and pos counters.  Errors: io.EOF and
the undefined-token error. -/

/-- The symbols map from token.go. -/
def symbols (ch : Char) : Bool :=
  ch = '(' ∨ ch = ')' ∨ ch = '[' ∨ ch = ']' ∨ ch = '{' ∨ ch = '}' ∨
  ch = ',' ∨ ch = ';' ∨ ch = '=' ∨ ch = '.' ∨
  ch = '+' ∨ ch = '-' ∨ ch = '*' ∨ ch = '/' ∨
  ch = '&' ∨ ch = '|' ∨ ch = '~' ∨ ch = '<' ∨ ch = '>'

/-- The keywords map from token.go.  Note: bool is not a keyword. -/
def keywords (w : String) : Bool :=
  w = "class" ∨ w = "constructor" ∨ w = "method" ∨ w = "function" ∨
  w = "int" ∨ w = "boolean" ∨ w = "char" ∨ w = "void" ∨
  w = "var" ∨ w = "static" ∨ w = "field" ∨
  w = "let" ∨ w = "do" ∨ w = "if" ∨ w = "else" ∨ w = "while" ∨ w = "return" ∨
  w = "true" ∨ w = "false" ∨ w = "null" ∨ w = "this"

def isSpace (ch : Char) : Bool := ch = ' ' ∨ ch = '\t' ∨ ch = '\r'

def isEOL (ch : Char) : Bool := ch = '\n'

/-- Tokenizer from token.go: remaining input plus position counters. -/
structure Tokenizer where
  input : List Char
  line : Nat
  pos : Nat
deriving DecidableEq, Repr

/-- NewTokenizer from token.go (line starts at 1, pos at 0). -/
def NewTokenizer (input : List Char) : Tokenizer := ⟨input, 1, 0⟩

/-- Lexer errors: io.EOF, and the undefined-token error carrying line and
pos. -/
inductive TkErr where
  | eof
  | undefined (line pos : Nat)
deriving DecidableEq, Repr

/-- Tokenizer.skipSpaces from token.go: t.nextByte() then the newline and
whitespace checks; on EOF the zero byte falls through both checks and the
error is returned.  The loop is structural recursion on the remaining
input bytes. -/
def skipSpacesAux : List Char → Nat → Nat → Except TkErr (Char × Tokenizer)
  | [], _, _ => .error .eof
  | ch :: rest, line, pos =>
    if isEOL ch then skipSpacesAux rest (line + 1) 0
    else if isSpace ch then skipSpacesAux rest line (pos + 1)
    else .ok (ch, ⟨rest, line, pos + 1⟩)

def skipSpaces (t : Tokenizer) : Except TkErr (Char × Tokenizer) :=
  skipSpacesAux t.input t.line t.pos

/-- Tokenizer.isInlineComment from token.go (peek-based). -/
def isInlineComment (first : Char) (t : Tokenizer) : Bool :=
  first = '/' ∧ t.input.head? = some '/'

/-- Tokenizer.isMultiLineComment from token.go. -/
def isMultiLineComment (first : Char) (t : Tokenizer) : Bool :=
  first = '/' ∧ t.input.head? = some '*'

/-- The reader.ReadBytes call of skipInlineComment: consume up to and
including the newline; bufio returns an error when EOF comes first.  The
bytes are read directly from the reader, so pos is not updated. -/
def readBytesNL : List Char → Option (List Char)
  | [] => none
  | ch :: rest => if ch = '\n' then some rest else readBytesNL rest

/-- Tokenizer.skipInlineComment from token.go. -/
def skipInlineComment (t : Tokenizer) : Except TkErr (Char × Tokenizer) :=
  match readBytesNL t.input with
  | none => .error .eof
  | some rest => skipSpacesAux rest (t.line + 1) 0

/-- Tokenizer.skipMultilineComment from token.go: scan for the star-slash
pair with nextByte (pos updated); only the first byte of each iteration is
checked for a newline. -/
def skipMultilineCommentAux : List Char → Nat → Nat → Except TkErr (Char × Tokenizer)
  | [], _, _ => .error .eof
  | first :: rest, line, pos =>
    if first = '*' then
      match rest with
      | [] => .error .eof
      | next :: rest2 =>
        if next = '/' then skipSpacesAux rest2 line (pos + 2)
        else skipMultilineCommentAux rest2 line (pos + 2)
    else if first = '\n' then skipMultilineCommentAux rest (line + 1) 0
    else skipMultilineCommentAux rest line (pos + 1)

def skipMultilineComment (t : Tokenizer) : Except TkErr (Char × Tokenizer) :=
  skipMultilineCommentAux t.input t.line t.pos

lemma skipSpacesAux_len : ∀ (l : List Char) (ln p : Nat) (ch : Char) (t' : Tokenizer),
    skipSpacesAux l ln p = .ok (ch, t') → t'.input.length < l.length := by
  intro l
  induction l with
  | nil => intro ln p ch t' h; cases h
  | cons c rest ih =>
    intro ln p ch t' h
    rw [skipSpacesAux] at h
    by_cases h1 : isEOL c
    · rw [if_pos h1] at h
      have := ih (ln + 1) 0 ch t' h
      simp
      omega
    · rw [if_neg h1] at h
      by_cases h2 : isSpace c
      · rw [if_pos h2] at h
        have := ih ln (p + 1) ch t' h
        simp
        omega
      · rw [if_neg h2] at h
        cases h
        simp

lemma readBytesNL_len : ∀ (l rest : List Char), readBytesNL l = some rest →
    rest.length < l.length := by
  intro l
  induction l with
  | nil => intro rest h; cases h
  | cons c cs ih =>
    intro rest h
    rw [readBytesNL] at h
    by_cases hc : c = '\n'
    · rw [if_pos hc] at h
      cases h
      simp
    · rw [if_neg hc] at h
      have := ih rest h
      simp
      omega

lemma skipInlineComment_len (t : Tokenizer) (ch : Char) (t' : Tokenizer)
    (h : skipInlineComment t = .ok (ch, t')) : t'.input.length < t.input.length := by
  unfold skipInlineComment at h
  cases hr : readBytesNL t.input with
  | none => rw [hr] at h; cases h
  | some rest =>
    rw [hr] at h
    have h1 := skipSpacesAux_len _ _ _ _ _ h
    have h2 := readBytesNL_len t.input rest hr
    omega

lemma skipMultilineCommentAux_len : ∀ (n : Nat) (l : List Char), l.length ≤ n →
    ∀ (ln p : Nat) (ch : Char) (t' : Tokenizer),
    skipMultilineCommentAux l ln p = .ok (ch, t') → t'.input.length < l.length := by
  intro n
  induction n with
  | zero =>
    intro l hlen ln p ch t' h
    cases l with
    | nil => cases h
    | cons c rest => simp at hlen
  | succ n ih =>
    intro l hlen ln p ch t' h
    cases l with
    | nil => cases h
    | cons first rest =>
      rw [skipMultilineCommentAux.eq_def] at h
      dsimp only at h
      by_cases h1 : first = '*'
      · rw [if_pos h1] at h
        cases rest with
        | nil => cases h
        | cons next rest2 =>
          dsimp only at h
          by_cases h2 : next = '/'
          · rw [if_pos h2] at h
            have := skipSpacesAux_len _ _ _ _ _ h
            simp
            omega
          · rw [if_neg h2] at h
            have := ih rest2 (by simp at hlen; omega) ln (p + 2) ch t' h
            simp
            omega
      · rw [if_neg h1] at h
        by_cases h3 : first = '\n'
        · rw [if_pos h3] at h
          have := ih rest (by simp at hlen; omega) (ln + 1) 0 ch t' h
          simp
          omega
        · rw [if_neg h3] at h
          have := ih rest (by simp at hlen; omega) ln (p + 1) ch t' h
          simp
          omega

lemma skipMultilineComment_len (t : Tokenizer) (ch : Char) (t' : Tokenizer)
    (h : skipMultilineComment t = .ok (ch, t')) : t'.input.length < t.input.length :=
  skipMultilineCommentAux_len t.input.length t.input (Nat.le_refl _) t.line t.pos ch t' h

/-- Tokenizer.skipComment from token.go: alternate inline and multi-line
skipping until the upcoming byte opens no comment.  The Go loop is
unbounded; here fuel bounds the number of comment blocks skipped.  Every
skipped block consumes at least one input byte (the length lemmas above),
so the fuel value input.length + 1 passed by ReadToken is never exhausted;
the fuel-exhaustion branch returns the EOF error and is unreachable under
that call pattern (skipComment_fuel below). -/
def skipComment (fuel : Nat) (first : Char) (t : Tokenizer) :
    Except TkErr (Char × Tokenizer) :=
  if isInlineComment first t then
    match fuel with
    | 0 => .error .eof
    | fuel + 1 =>
      match skipInlineComment t with
      | .error e => .error e
      | .ok (first', t') => skipComment fuel first' t'
  else if isMultiLineComment first t then
    match fuel with
    | 0 => .error .eof
    | fuel + 1 =>
      match skipMultilineComment t with
      | .error e => .error e
      | .ok (first', t') => skipComment fuel first' t'
  else .ok (first, t)

/-- Fuel sufficiency: any two fuel values above the input length give the
same result, so skipComment with input.length + 1 computes the Go loop. -/
lemma skipComment_fuel : ∀ (fuel fuel' : Nat) (first : Char) (t : Tokenizer),
    t.input.length < fuel → t.input.length < fuel' →
    skipComment fuel first t = skipComment fuel' first t := by
  intro fuel
  induction fuel with
  | zero => intro fuel' first t h; omega
  | succ f ih =>
    intro fuel' first t h h'
    cases fuel' with
    | zero => omega
    | succ f' =>
      rw [skipComment, skipComment]
      by_cases h1 : isInlineComment first t
      · rw [if_pos h1, if_pos h1]
        cases hs : skipInlineComment t with
        | error e => rfl
        | ok r =>
          obtain ⟨first2, t2⟩ := r
          have hlen := skipInlineComment_len t first2 t2 hs
          exact ih f' first2 t2 (by omega) (by omega)
      · rw [if_neg h1, if_neg h1]
        by_cases h2 : isMultiLineComment first t
        · rw [if_pos h2, if_pos h2]
          cases hs : skipMultilineComment t with
          | error e => rfl
          | ok r =>
            obtain ⟨first2, t2⟩ := r
            have hlen := skipMultilineComment_len t first2 t2 hs
            exact ih f' first2 t2 (by omega) (by omega)
        · rw [if_neg h2, if_neg h2]

/-- Tokenizer.readWord from token.go: peek, stop on whitespace, symbol,
newline or EOF, otherwise consume; a zero byte is consumed but not
appended. -/
def readWordAux : List Char → Nat → Nat → List Char → List Char × Tokenizer
  | [], l, p, acc => (acc, ⟨[], l, p⟩)
  | ch :: rest, line, pos, acc =>
    if isSpace ch ∨ symbols ch ∨ isEOL ch then (acc, ⟨ch :: rest, line, pos⟩)
    else readWordAux rest line (pos + 1) (acc ++ if ch = Char.ofNat 0 then [] else [ch])

def readWord (t : Tokenizer) (acc : List Char) : List Char × Tokenizer :=
  readWordAux t.input t.line t.pos acc

/-- Tokenizer.readStringToken from token.go: consume until a closing
quote, which is consumed but excluded, or until EOF; embedded newlines
advance the line counter; on EOF the bytes read so far are returned with
no error. -/
def readStringTokenAux : List Char → Nat → Nat → List Char → List Char × Tokenizer
  | [], l, p, acc => (acc, ⟨[], l, p⟩)
  | ch :: rest, line, pos, acc =>
    if ch = '"' then (acc, ⟨rest, line, pos + 1⟩)
    else if ch = '\n' then readStringTokenAux rest (line + 1) 0 (acc ++ [ch])
    else readStringTokenAux rest line (pos + 1) (acc ++ [ch])

def readStringToken (t : Tokenizer) (acc : List Char) : List Char × Tokenizer :=
  readStringTokenAux t.input t.line t.pos acc

/-- Tokenizer.ReadToken from token.go. -/
def ReadToken (t : Tokenizer) : Except TkErr (Token × Tokenizer) :=
  match skipSpaces t with
  | .error e => .error e
  | .ok (first, t1) =>
    match skipComment (t1.input.length + 1) first t1 with
    | .error e => .error e
    | .ok (first, t2) =>
      let startPos := t2.pos
      if symbols first then
        .ok (NewSymbolToken ⟨[first]⟩ t2.line startPos, t2)
      else if first = '"' then
        match readStringToken t2 [] with
        | (word, t3) => .ok (NewStringConstantToken ⟨word⟩ t3.line startPos, t3)
      else if first.isAlpha then
        match readWord t2 [first] with
        | (word, t3) =>
          if keywords ⟨word⟩ then .ok (NewKeywordToken ⟨word⟩ t3.line startPos, t3)
          else .ok (NewIdentifierToken ⟨word⟩ t3.line startPos, t3)
      else if first.isDigit then
        match readWord t2 [first] with
        | (word, t3) => .ok (NewIntegerConstantToken ⟨word⟩ t3.line startPos, t3)
      else .error (.undefined t2.line t2.pos)

/-! ## Unterminated strings (C6) -/

lemma readStringTokenAux_noquote : ∀ (rest : List Char), '"' ∉ rest →
    ∀ (l p : Nat) (acc : List Char), ∃ (l' p' : Nat),
      readStringTokenAux rest l p acc = (acc ++ rest, ⟨[], l', p'⟩) := by
  intro rest
  induction rest with
  | nil => intro hq l p acc; exact ⟨l, p, by simp [readStringTokenAux]⟩
  | cons ch rest' ih =>
    intro hq l p acc
    have hch : ¬ ch = '"' := fun hc => hq (hc ▸ List.mem_cons_self ch rest')
    have hrest : '"' ∉ rest' := fun hc => hq (List.mem_cons_of_mem ch hc)
    rw [readStringTokenAux]
    rw [if_neg hch]
    by_cases hnl : ch = '\n'
    · rw [if_pos hnl]
      obtain ⟨l', p', hres⟩ := ih hrest (l + 1) 0 (acc ++ [ch])
      exact ⟨l', p', by rw [hres]; simp⟩
    · rw [if_neg hnl]
      obtain ⟨l', p', hres⟩ := ih hrest l (p + 1) (acc ++ [ch])
      exact ⟨l', p', by rw [hres]; simp⟩

/-- C6, amended: when the input ends inside a string constant (an opening
double quote with no closing quote before EOF), ReadToken does NOT fail:
it returns a StringConstant token whose value is everything after the
opening quote up to EOF, consuming the whole input, and EOF is signalled
on the next ReadToken call (clean EOF after the last returned token). -/
theorem unterminated_string_spec (rest : List Char) (l p : Nat) (hq : ¬ '"' ∈ rest) :
    ∃ (l' p' : Nat),
      ReadToken ⟨'"' :: rest, l, p⟩ =
        .ok (NewStringConstantToken ⟨rest⟩ l' (p + 1), ⟨[], l', p'⟩) ∧
      ReadToken ⟨[], l', p'⟩ = .error .eof := by
  obtain ⟨l', p', h3⟩ := readStringTokenAux_noquote rest hq l (p + 1) []
  refine ⟨l', p', ?_, rfl⟩
  rw [ReadToken]
  have h1 : skipSpaces ⟨'"' :: rest, l, p⟩ = .ok ('"', ⟨rest, l, p + 1⟩) := by
    rw [skipSpaces]
    dsimp only
    rw [skipSpacesAux]
    rfl
  rw [h1]
  dsimp only
  have h2 : skipComment ((⟨rest, l, p + 1⟩ : Tokenizer).input.length + 1) '"'
      ⟨rest, l, p + 1⟩ = .ok ('"', ⟨rest, l, p + 1⟩) := by
    rw [skipComment]
    simp [isInlineComment, isMultiLineComment]
  rw [h2]
  dsimp only
  rw [if_neg (by decide), if_pos rfl]
  rw [show readStringToken (⟨rest, l, p + 1⟩ : Tokenizer) [] =
    readStringTokenAux rest l (p + 1) [] from rfl]
  rw [h3]
  rfl

/-- Witness for unterminated_string_spec at the concrete input consisting
of a quote followed by abc. -/
theorem unterminated_string_spec_witness :
    ∃ (l' p' : Nat),
      ReadToken ⟨['"', 'a', 'b', 'c'], 1, 0⟩ =
        .ok (NewStringConstantToken ⟨['a', 'b', 'c']⟩ l' (0 + 1), ⟨[], l', p'⟩) ∧
      ReadToken ⟨[], l', p'⟩ = .error .eof :=
  unterminated_string_spec ['a', 'b', 'c'] 1 0 (by decide)

/-- C6 counterexample: on the input quote-a-b-c (a string constant left
open at EOF) ReadToken returns a StringConstant token with value abc and
no error, refuting the claim that it fails with UnexpectedEOF. -/
theorem unterminated_string_cex :
    ReadToken (NewTokenizer ['"', 'a', 'b', 'c']) =
      .ok (⟨.TokenStringConst, "abc", 1, 1⟩, ⟨[], 1, 4⟩) ∧
    ReadToken (NewTokenizer ['"', 'a', 'b', 'c']) ≠ .error .eof ∧
    ReadToken (NewTokenizer ['"', 'a', 'b', 'c']) ≠ .error (.undefined 1 4) := by
  refine ⟨rfl, ?_, ?_⟩ <;> intro hc <;> rw [show ReadToken (NewTokenizer ['"', 'a', 'b', 'c']) =
    .ok (⟨.TokenStringConst, "abc", 1, 1⟩, ⟨[], 1, 4⟩) from rfl] at hc <;> cases hc

/-! ## Parser (ParseTree, part_001 snapshot)

The parser pulls tokens from the tokenizer through next() and a two-slot
peek buffer; as used (peek(1) is only consulted after peek(0)) this is
observationally the stream of tokens, modelled as a List Token.  next()
on EOF raises the Unexpected EOF error.  The recursive productions carry
fuel, decremented at each recursive call; every recursive call first
consumes at least one token, so fuel = token-count + 1 is always enough,
and the out-of-fuel branch is unreachable on such calls. -/

def isTokenType (tk : Option Token) (tt : TokenType) : Bool :=
  match tk with
  | some tk => tk.tt = tt
  | none => false

def isTokenOne (tk : Option Token) (tt : TokenType) (val : String) : Bool :=
  isTokenType tk tt &&
    match tk with
    | some tk => tk.value = val
    | none => false

def isTokenAny (tk : Option Token) (tt : TokenType) (vals : List String) : Bool :=
  isTokenType tk tt &&
    match tk with
    | some tk => vals.contains tk.value
    | none => false

/-- ParseTree.peek from part_001: a nil Token at and beyond EOF. -/
def peek (toks : List Token) (fw : Nat) : Option Token := toks.get? fw

/-- ParseTree.next / feed from part_001: Unexpected EOF when the stream is
exhausted. -/
def pNext : List Token → Except String (Token × List Token)
  | [] => .error "Unexpected EOF"
  | tk :: rest => .ok (tk, rest)

/-- ParseTree.feedToken from part_001: type must match, and when the
expected value is nonempty the value must match too. -/
def feedToken (tt : TokenType) (val : String) (toks : List Token) :
    Except String (Token × List Token) :=
  match pNext toks with
  | .error e => .error e
  | .ok (tk, rest) =>
    if tk.tt ≠ tt ∨ (val ≠ "" ∧ tk.value ≠ val) then .error "Unexpexted token"
    else .ok (tk, rest)

/-- ParseTree.varType from part_001: keywords int, char and boolean, or
any identifier. -/
def varType (toks : List Token) : Except String (Token × List Token) :=
  match pNext toks with
  | .error e => .error e
  | .ok (tk, rest) =>
    match tk.tt with
    | .TokenKeyword =>
      if tk.value ≠ "int" ∧ tk.value ≠ "char" ∧ tk.value ≠ "boolean" then
        .error "Unexpected Jack builin type"
      else .ok (tk, rest)
    | .TokenIdentifier => .ok (tk, rest)
    | _ => .error "Unexpected Token for Var type"

/-- The comma loop of ParseTree.varDec. -/
def varDecLoop : Nat → VarDecNode → List Token → Except String (VarDecNode × List Token)
  | 0, _, _ => .error "out of fuel"
  | fuel + 1, vd, toks =>
    if isTokenOne (peek toks 0) .TokenSymbol ";" then .ok (vd, toks)
    else
      match feedToken .TokenSymbol "," toks with
      | .error e => .error e
      | .ok (_, toks) =>
        match feedToken .TokenIdentifier "" toks with
        | .error e => .error e
        | .ok (id, toks) => varDecLoop fuel { vd with ids := vd.ids ++ [id] } toks

/-- ParseTree.varDec from part_001: var, a type, identifiers separated by
commas, a semicolon. -/
def varDec (toks : List Token) : Except String (VarDecNode × List Token) :=
  match feedToken .TokenKeyword "var" toks with
  | .error e => .error e
  | .ok (_, toks) =>
    match varType toks with
    | .error e => .error e
    | .ok (vt, toks) =>
      match feedToken .TokenIdentifier "" toks with
      | .error e => .error e
      | .ok (id, toks) =>
        match varDecLoop (toks.length + 1) ⟨vt, [id]⟩ toks with
        | .error e => .error e
        | .ok (vd, toks) =>
          match feedToken .TokenSymbol ";" toks with
          | .error e => .error e
          | .ok (_, toks) => .ok (vd, toks)

mutual
/-- ParseTree.term from part_001.  The branch order is the source order:
the keywordConstant case lists true, false, null AND this, so the
dedicated this case right after it can never fire.  (The string-constant
case builds the generic const term node of the older nodes snapshot,
modelled as the string-constant term.) -/
def pTerm : Nat → List Token → Except String (TermNode × List Token)
  | 0, _ => .error "out of fuel"
  | fuel + 1, toks =>
    let pFirst := peek toks 0
    if isTokenType pFirst .TokenIntegerConst then
      match pNext toks with
      | .error e => .error e
      | .ok (intToken, toks) => .ok (.intConst intToken, toks)
    else if isTokenType pFirst .TokenStringConst then
      match pNext toks with
      | .error e => .error e
      | .ok (strToken, toks) => .ok (.strConst strToken, toks)
    else if isTokenAny pFirst .TokenKeyword ["true", "false", "null", "this"] then
      match pNext toks with
      | .error e => .error e
      | .ok (kwToken, toks) => .ok (.keyWordConst kwToken, toks)
    else if isTokenOne pFirst .TokenKeyword "this" then
      match pNext toks with
      | .error e => .error e
      | .ok (kwToken, toks) => .ok (.thisConst kwToken, toks)
    else if isTokenAny pFirst .TokenSymbol ["-", "~"] then
      match pNext toks with
      | .error e => .error e
      | .ok (unOpTk, toks) =>
        match pTerm fuel toks with
        | .error e => .error e
        | .ok (childTerm, toks) => .ok (.unary unOpTk childTerm, toks)
    else if isTokenOne pFirst .TokenSymbol "(" then
      match pNext toks with
      | .error e => .error e
      | .ok (_, toks) =>
        match pExpression fuel toks with
        | .error e => .error e
        | .ok (expr, toks) =>
          match feedToken .TokenSymbol ")" toks with
          | .error e => .error e
          | .ok (_, toks) => .ok (.exprTerm expr, toks)
    else if isTokenType pFirst .TokenIdentifier then
      let pSecond := peek toks 1
      if isTokenOne pSecond .TokenSymbol "[" then
        match pNext toks with
        | .error e => .error e
        | .ok (ident, toks) =>
          match pNext toks with
          | .error e => .error e
          | .ok (_, toks) =>
            match pExpression fuel toks with
            | .error e => .error e
            | .ok (expr, toks) =>
              match feedToken .TokenSymbol "]" toks with
              | .error e => .error e
              | .ok (_, toks) => .ok (.arrayTerm ident expr, toks)
      else if isTokenAny pSecond .TokenSymbol ["(", "."] then
        match pSubroutineCall fuel toks with
        | .error e => .error e
        | .ok (call, toks) => .ok (.callTerm call, toks)
      else
        match pNext toks with
        | .error e => .error e
        | .ok (ident, toks) => .ok (.varTerm ident, toks)
    else .error "Token is not a term"

/-- ParseTree.expression from part_001: a term then the operator loop. -/
def pExpression : Nat → List Token → Except String (ExpressionNode × List Token)
  | 0, _ => .error "out of fuel"
  | fuel + 1, toks =>
    match pTerm fuel toks with
    | .error e => .error e
    | .ok (term, toks) => pOpTermLoop fuel term [] [] toks

def pOpTermLoop : Nat → TermNode → List Token → List TermNode → List Token →
    Except String (ExpressionNode × List Token)
  | 0, _, _, _, _ => .error "out of fuel"
  | fuel + 1, term, ops, opTerms, toks =>
    if isTokenAny (peek toks 0) .TokenSymbol
        ["+", "-", "*", "/", "&", "|", "<", ">", "="] then
      match pNext toks with
      | .error e => .error e
      | .ok (opToken, toks) =>
        match pTerm fuel toks with
        | .error e => .error e
        | .ok (nextTerm, toks) =>
          pOpTermLoop fuel term (ops ++ [opToken]) (opTerms ++ [nextTerm]) toks
    else .ok (.mk term ops opTerms, toks)

/-- ParseTree.subroutineCall from part_001. -/
def pSubroutineCall : Nat → List Token → Except String (SubroutineCallNode × List Token)
  | 0, _ => .error "out of fuel"
  | fuel + 1, toks =>
    match feedToken .TokenIdentifier "" toks with
    | .error e => .error e
    | .ok (name, toks) =>
      if isTokenOne (peek toks 0) .TokenSymbol "." then
        match pNext toks with
        | .error e => .error e
        | .ok (_, toks) =>
          match feedToken .TokenIdentifier "" toks with
          | .error e => .error e
          | .ok (sbrName, toks) =>
            match feedToken .TokenSymbol "(" toks with
            | .error e => .error e
            | .ok (_, toks) =>
              match pExpressionList fuel toks with
              | .error e => .error e
              | .ok (params, toks) =>
                match feedToken .TokenSymbol ")" toks with
                | .error e => .error e
                | .ok (_, toks) => .ok (.mk (some name) sbrName params, toks)
      else
        match feedToken .TokenSymbol "(" toks with
        | .error e => .error e
        | .ok (_, toks) =>
          match pExpressionList fuel toks with
          | .error e => .error e
          | .ok (params, toks) =>
            match feedToken .TokenSymbol ")" toks with
            | .error e => .error e
            | .ok (_, toks) => .ok (.mk none name params, toks)

/-- ParseTree.expressionList from part_001. -/
def pExpressionList : Nat → List Token → Except String (ExpressionListNode × List Token)
  | 0, _ => .error "out of fuel"
  | fuel + 1, toks =>
    if ¬ isTokenOne (peek toks 0) .TokenSymbol ")" then
      match pExpression fuel toks with
      | .error e => .error e
      | .ok (firstExpr, toks) => pExprListLoop fuel [firstExpr] toks
    else pExprListLoop fuel [] toks

def pExprListLoop : Nat → List ExpressionNode → List Token →
    Except String (ExpressionListNode × List Token)
  | 0, _, _ => .error "out of fuel"
  | fuel + 1, exprs, toks =>
    if isTokenOne (peek toks 0) .TokenSymbol "," then
      match pNext toks with
      | .error e => .error e
      | .ok (_, toks) =>
        match pExpression fuel toks with
        | .error e => .error e
        | .ok (addExpr, toks) => pExprListLoop fuel (exprs ++ [addExpr]) toks
    else .ok (.mk exprs, toks)
end

/-! ## Subroutine-call argument order (C1) -/

/-- C1, code evaluation at the failing input: SubroutineCallNode.Compile
compiles the argument expressions BEFORE pushing the receiver.  For
p.dist(x) with p a declared var (Point, local 0) and x (int, local 1) the
emitted code is push local 1, push local 0, call Point.dist 2 - the
receiver lands on the stack after the argument, so the callee's argument 0
is x, not p.  Likewise do bar(1) with no prefix inside class C emits
push constant 1, push pointer 0, call C.bar 2. -/
theorem call_receiver_after_args_code_bug :
    compileSubroutineCall
      (.mk (some ⟨.TokenIdentifier, "p", 1, 1⟩) ⟨.TokenIdentifier, "dist", 1, 1⟩
        (.mk [.mk (.varTerm ⟨.TokenIdentifier, "x", 1, 1⟩) [] []]))
      ⟨[], 0, 0, [⟨"M.f", [("p", ⟨.Local, "Point", 0⟩), ("x", ⟨.Local, "int", 1⟩)],
        ⟨0, 0, 0, 2⟩⟩]⟩ =
      .ok ⟨["push local 1", "push local 0", "call Point.dist 2"], 0, 0,
        [⟨"M.f", [("p", ⟨.Local, "Point", 0⟩), ("x", ⟨.Local, "int", 1⟩)], ⟨0, 0, 0, 2⟩⟩]⟩ ∧
    compileSubroutineCall
      (.mk none ⟨.TokenIdentifier, "bar", 1, 1⟩
        (.mk [.mk (.intConst ⟨.TokenIntegerConst, "1", 1, 1⟩) [] []]))
      ⟨[], 0, 0, [NewSymbolTable "C", NewSymbolTable "C.f"]⟩ =
      .ok ⟨["push constant 1", "push pointer 0", "call C.bar 2"], 0, 0,
        [NewSymbolTable "C", NewSymbolTable "C.f"]⟩ :=
  ⟨rfl, rfl⟩

/-! ## The keyword-constant this (C3) -/

/-- C3, code evaluation at the failing input: the parser's keywordConstant
case already matches this (together with true, false and null), so the
dedicated this branch below it is unreachable, and a parsed this term is a
generic keyword-constant node which the code generator lowers to
push constant 0 - not push pointer 0, which only the unreachable
this-variant would produce.  The true, false and null lowerings conform to
the claim. -/
theorem this_term_code_bug :
    pTerm 2 [⟨.TokenKeyword, "this", 1, 1⟩] =
      .ok (.keyWordConst ⟨.TokenKeyword, "this", 1, 1⟩, []) ∧
    compileTermNode (.keyWordConst ⟨.TokenKeyword, "this", 1, 1⟩) NewCompiler =
      .ok ⟨["push constant 0"], 0, 0, []⟩ ∧
    compileTermNode (.thisConst ⟨.TokenKeyword, "this", 1, 1⟩) NewCompiler =
      .ok ⟨["push pointer 0"], 0, 0, []⟩ ∧
    compileTermNode (.keyWordConst ⟨.TokenKeyword, "true", 1, 1⟩) NewCompiler =
      .ok ⟨["push constant 0", "not"], 0, 0, []⟩ ∧
    compileTermNode (.keyWordConst ⟨.TokenKeyword, "false", 1, 1⟩) NewCompiler =
      .ok ⟨["push constant 0"], 0, 0, []⟩ ∧
    compileTermNode (.keyWordConst ⟨.TokenKeyword, "null", 1, 1⟩) NewCompiler =
      .ok ⟨["push constant 0"], 0, 0, []⟩ :=
  ⟨rfl, rfl, rfl, rfl, rfl, rfl⟩

/-! ## The type production and the word bool (C9) -/

/-- C9, amended: the type production accepts exactly the keywords int,
char and boolean and any identifier, and rejects every other keyword
token; but bool is not in the lexer's keyword set, so a type written bool
is lexed as an identifier and a declaration var bool x ; parses
successfully with bool as a class-name type; var boolean x ; also
succeeds. -/
theorem varType_spec :
    (∀ (v : String) (ln ps : Nat) (toks : List Token),
      v = "int" ∨ v = "char" ∨ v = "boolean" →
      varType (⟨.TokenKeyword, v, ln, ps⟩ :: toks) = .ok (⟨.TokenKeyword, v, ln, ps⟩, toks)) ∧
    (∀ (v : String) (ln ps : Nat) (toks : List Token),
      v ≠ "int" → v ≠ "char" → v ≠ "boolean" →
      varType (⟨.TokenKeyword, v, ln, ps⟩ :: toks) = .error "Unexpected Jack builin type") ∧
    (∀ (v : String) (ln ps : Nat) (toks : List Token),
      varType (⟨.TokenIdentifier, v, ln, ps⟩ :: toks) =
        .ok (⟨.TokenIdentifier, v, ln, ps⟩, toks)) ∧
    (∀ (v : String) (ln ps : Nat) (toks : List Token),
      varType (⟨.TokenSymbol, v, ln, ps⟩ :: toks) = .error "Unexpected Token for Var type") ∧
    keywords "bool" = false ∧
    varDec [⟨.TokenKeyword, "var", 1, 1⟩, ⟨.TokenIdentifier, "bool", 1, 5⟩,
        ⟨.TokenIdentifier, "x", 1, 10⟩, ⟨.TokenSymbol, ";", 1, 12⟩] =
      .ok (⟨⟨.TokenIdentifier, "bool", 1, 5⟩, [⟨.TokenIdentifier, "x", 1, 10⟩]⟩, []) ∧
    varDec [⟨.TokenKeyword, "var", 1, 1⟩, ⟨.TokenKeyword, "boolean", 1, 5⟩,
        ⟨.TokenIdentifier, "x", 1, 13⟩, ⟨.TokenSymbol, ";", 1, 15⟩] =
      .ok (⟨⟨.TokenKeyword, "boolean", 1, 5⟩, [⟨.TokenIdentifier, "x", 1, 13⟩]⟩, []) := by
  refine ⟨?_, ?_, ?_, ?_, rfl, rfl, rfl⟩
  · intro v ln ps toks h
    rcases h with rfl | rfl | rfl <;> rfl
  · intro v ln ps toks h1 h2 h3
    unfold varType pNext
    dsimp only
    rw [if_pos ⟨h1, h2, h3⟩]
  · intro v ln ps toks
    rfl
  · intro v ln ps toks
    rfl

/-- Witness for varType_spec: int accepted, the keyword let rejected. -/
theorem varType_spec_witness :
    varType [⟨.TokenKeyword, "int", 1, 1⟩] = .ok (⟨.TokenKeyword, "int", 1, 1⟩, []) ∧
    varType [⟨.TokenKeyword, "let", 1, 1⟩] = .error "Unexpected Jack builin type" ∧
    varType [⟨.TokenIdentifier, "Point", 1, 1⟩] =
      .ok (⟨.TokenIdentifier, "Point", 1, 1⟩, []) :=
  ⟨varType_spec.1 "int" 1 1 [] (Or.inl rfl),
   varType_spec.2.1 "let" 1 1 [] (by decide) (by decide) (by decide),
   varType_spec.2.2.1 "Point" 1 1 []⟩

/-- C9 counterexample: lexing the input var bool x ; yields keyword var,
identifier bool, identifier x and a semicolon (bool is NOT a keyword
token), and varDec parses those tokens successfully, with bool accepted as
a class-name type - the declaration does not fail. -/
theorem bool_type_cex :
    ReadToken (NewTokenizer "var bool x ;".toList) =
      .ok (⟨.TokenKeyword, "var", 1, 1⟩, ⟨" bool x ;".toList, 1, 3⟩) ∧
    ReadToken ⟨" bool x ;".toList, 1, 3⟩ =
      .ok (⟨.TokenIdentifier, "bool", 1, 5⟩, ⟨" x ;".toList, 1, 8⟩) ∧
    ReadToken ⟨" x ;".toList, 1, 8⟩ =
      .ok (⟨.TokenIdentifier, "x", 1, 10⟩, ⟨" ;".toList, 1, 10⟩) ∧
    ReadToken ⟨" ;".toList, 1, 10⟩ =
      .ok (⟨.TokenSymbol, ";", 1, 12⟩, ⟨[], 1, 12⟩) ∧
    varDec [⟨.TokenKeyword, "var", 1, 1⟩, ⟨.TokenIdentifier, "bool", 1, 5⟩,
        ⟨.TokenIdentifier, "x", 1, 10⟩, ⟨.TokenSymbol, ";", 1, 12⟩] =
      .ok (⟨⟨.TokenIdentifier, "bool", 1, 5⟩, [⟨.TokenIdentifier, "x", 1, 10⟩]⟩, []) :=
  ⟨rfl, rfl, rfl, rfl, rfl⟩

end HackJack
